import Mathlib

/-!
Verification development for the Smart-Campus resource-allocation system.

Two engines exist in the repository and both are embedded here:
* `Sch` models `src/scheduler.py` (heap-based engine over `src/models.py`,
  `src/utils.py`);
* `SC` models `src/smart_campus.py` (linear-scan engine).

Python `dict`s become association lists (insertion order preserved, keys
unique in all reachable states), `datetime` values become `Nat` instants
passed in explicitly as `now`, and `uuid.uuid4()` identifiers become values
drawn from a monotone `next_id` counter, which models their freshness.
`heapq` heaps are modelled as lists whose pop order is recovered with
`List.insertionSort` under the (total) Python comparison order, which agrees
with the heap's pop order because that order is total.
-/

deriving instance DecidableEq for Except

/-- Lookup in an association list: the Lean counterpart of `d[k]` /
`k in d` for a Python `dict` with unique keys. -/
def alookup {κ α : Type} [DecidableEq κ] : List (κ × α) → κ → Option α
  | [], _ => none
  | p :: ps, k => if p.1 = k then some p.2 else alookup ps k

/-- Update the value stored at key `k` (no-op when `k` is absent): the Lean
counterpart of mutating `d[k]` in place. -/
def updA {κ α : Type} [DecidableEq κ] (l : List (κ × α)) (k : κ) (f : α → α) :
    List (κ × α) :=
  l.map (fun p => if p.1 = k then (p.1, f p.2) else p)

theorem alookup_append {κ α : Type} [DecidableEq κ] (l₁ l₂ : List (κ × α)) (k : κ) :
    alookup (l₁ ++ l₂) k =
      (match alookup l₁ k with | some v => some v | none => alookup l₂ k) := by
  induction l₁ with
  | nil => simp [alookup]
  | cons p ps ih =>
      by_cases h : p.1 = k <;> simp [alookup, h, ih]

theorem alookup_eq_none {κ α : Type} [DecidableEq κ] {l : List (κ × α)} {k : κ}
    (h : ∀ p ∈ l, p.1 ≠ k) : alookup l k = none := by
  induction l with
  | nil => rfl
  | cons p ps ih =>
      simp only [alookup, if_neg (h p (by simp))]
      exact ih (fun q hq => h q (by simp [hq]))

theorem alookup_mem {κ α : Type} [DecidableEq κ] {l : List (κ × α)} {k : κ} {v : α}
    (h : alookup l k = some v) : (k, v) ∈ l := by
  induction l with
  | nil => simp [alookup] at h
  | cons p ps ih =>
      by_cases hk : p.1 = k
      · simp [alookup, hk] at h
        subst hk; subst h
        simp
      · simp [alookup, hk] at h
        exact List.mem_cons_of_mem _ (ih h)

theorem alookup_updA {κ α : Type} [DecidableEq κ] (l : List (κ × α)) (k : κ)
    (f : α → α) (j : κ) :
    alookup (updA l k f) j =
      if j = k then (alookup l j).map f else alookup l j := by
  induction l with
  | nil => simp [alookup, updA]
  | cons p ps ih =>
      by_cases hpk : p.1 = k <;> by_cases hpj : p.1 = j
      · have hjk : j = k := hpj.symm.trans hpk
        simp [updA, alookup, hpk, hpj, hjk]
      · have hjk : ¬ j = k := fun h => hpj (hpk.trans h.symm)
        have hkj : ¬ k = j := fun h => hjk h.symm
        simpa [updA, alookup, hpk, hpj, hjk, hkj] using ih
      · have hjk : ¬ j = k := fun h => hpk (hpj.trans h)
        simp [updA, alookup, hpk, hpj, hjk]
      · simpa [updA, alookup, hpk, hpj] using ih

theorem updA_map_fst {κ α : Type} [DecidableEq κ] (l : List (κ × α)) (k : κ)
    (f : α → α) : (updA l k f).map Prod.fst = l.map Prod.fst := by
  induction l with
  | nil => rfl
  | cons p ps ih =>
      by_cases h : p.1 = k <;> simp [updA, h] at ih ⊢ <;> simpa [updA] using ih

theorem mem_updA {κ α : Type} [DecidableEq κ] {l : List (κ × α)} {k : κ}
    {f : α → α} {q : κ × α} (h : q ∈ updA l k f) :
    (q ∈ l ∧ q.1 ≠ k) ∨ (∃ p ∈ l, p.1 = k ∧ q = (p.1, f p.2)) := by
  induction l with
  | nil => simp [updA] at h
  | cons p ps ih =>
      simp only [updA, List.map_cons, List.mem_cons] at h
      rcases h with h | h
      · by_cases hpk : p.1 = k
        · right; exact ⟨p, by simp, hpk, by simpa [hpk] using h⟩
        · left
          constructor
          · simp [if_neg hpk] at h; simp [h]
          · simp [if_neg hpk] at h; simp [h, hpk]
      · rcases ih h with ⟨hq, hk⟩ | ⟨p', hp', hk', he⟩
        · exact Or.inl ⟨List.mem_cons_of_mem _ hq, hk⟩
        · exact Or.inr ⟨p', List.mem_cons_of_mem _ hp', hk', he⟩

theorem alookup_isSome_iff_mem {κ α : Type} [DecidableEq κ] (l : List (κ × α)) (k : κ) :
    (alookup l k).isSome = true ↔ k ∈ l.map Prod.fst := by
  induction l with
  | nil => simp [alookup]
  | cons p ps ih =>
      by_cases h : p.1 = k
      · simp [alookup, h]
      · simp only [alookup, if_neg h, List.map_cons, List.mem_cons]
        rw [ih]
        exact ⟨Or.inr, fun hm => hm.resolve_left (fun hh => h hh.symm)⟩

theorem alookup_isSome_updA {κ α : Type} [DecidableEq κ] (l : List (κ × α)) (k : κ)
    (f : α → α) (j : κ) :
    (alookup (updA l k f) j).isSome = (alookup l j).isSome := by
  rw [alookup_updA]
  by_cases h : j = k
  · cases alookup l j <;> simp [h]
  · simp [h]

theorem alookup_of_mem_nodup {κ α : Type} [DecidableEq κ] {l : List (κ × α)} {k : κ}
    {v : α} (h : (k, v) ∈ l) (hn : (l.map Prod.fst).Nodup) : alookup l k = some v := by
  induction l with
  | nil => simp at h
  | cons p ps ih =>
      rcases List.mem_cons.mp h with h1 | h1
      · subst h1
        simp [alookup]
      · simp only [List.map_cons, List.nodup_cons] at hn
        have hk : p.1 ≠ k := by
          intro hh
          exact hn.1 (hh ▸ (List.mem_map.mpr ⟨(k, v), h1, rfl⟩))
        simp only [alookup, if_neg hk]
        exact ih h1 hn.2

theorem alookup_filter_ne {κ α : Type} [DecidableEq κ] (l : List (κ × α)) (k j : κ) :
    alookup (l.filter (fun p => p.1 ≠ j)) k =
      if k = j then none else alookup l k := by
  induction l with
  | nil => simp [alookup]
  | cons p ps ih =>
      by_cases hpj : p.1 = j
      · rw [List.filter_cons_of_neg (by simp [hpj]), ih]
        by_cases hkj : k = j
        · simp [hkj]
        · have hpk : ¬ p.1 = k := fun hh => hkj (hh ▸ hpj)
          simp [hkj, alookup, hpk]
      · rw [List.filter_cons_of_pos (by simp [hpj])]
        by_cases hpk : p.1 = k
        · have hkj : ¬ k = j := fun hh => hpj (hpk.trans hh)
          simp [alookup, hpk, hkj]
        · simp only [alookup, if_neg hpk]
          exact ih

theorem mem_filter_of_ne {κ α : Type} [DecidableEq κ] {l : List (κ × α)} {k j : κ}
    {v : α} (h : (k, v) ∈ l) (hk : k ≠ j) :
    (k, v) ∈ l.filter (fun p => p.1 ≠ j) :=
  List.mem_filter.mpr ⟨h, by simpa using hk⟩

theorem map_fst_filter_sublist {κ α : Type} (l : List (κ × α)) (p : κ × α → Bool) :
    List.Sublist ((l.filter p).map Prod.fst) (l.map Prod.fst) :=
  (List.filter_sublist l).map Prod.fst

theorem alookup_append_isSome_left {κ α : Type} [DecidableEq κ] {l1 : List (κ × α)}
    (l2 : List (κ × α)) {k : κ} (h : (alookup l1 k).isSome = true) :
    (alookup (l1 ++ l2) k).isSome = true := by
  rw [alookup_append]
  cases hl : alookup l1 k with
  | some v => simp
  | none => rw [hl] at h; simp at h

theorem alookup_append_of_none {κ α : Type} [DecidableEq κ] {l1 : List (κ × α)} {k : κ}
    (h : alookup l1 k = none) (l2 : List (κ × α)) :
    alookup (l1 ++ l2) k = alookup l2 k := by
  rw [alookup_append, h]

namespace Sch

/-- `src/utils.py` `is_overlap`: two half-open ranges intersect. -/
def is_overlap (a_start a_end b_start b_end : Nat) : Bool :=
  !(decide (a_end ≤ b_start) || decide (b_end ≤ a_start))

/-- `src/models.py` `User`. -/
structure User where
  user_id : Nat
  name : String
  role : String
  priority : Nat
deriving DecidableEq, Repr

/-- `src/models.py` `Resource`. -/
structure SResource where
  resource_id : Nat
  name : String
  capacity : Option Nat
deriving DecidableEq, Repr

/-- `src/models.py` `Booking`. -/
structure Booking where
  booking_id : Nat
  user_id : Nat
  resource_id : Nat
  start_time : Nat
  end_time : Nat
deriving DecidableEq, Repr

/-- `src/models.py` `BookingRequest` (the `sort_index` field is derived, so it
is not stored; the comparison order `reqLE` below reproduces it). -/
structure Request where
  request_id : Nat
  user_id : Nat
  resource_id : Nat
  start_time : Nat
  end_time : Nat
  request_time : Nat
  priority : Nat
deriving DecidableEq, Repr

/-- Effective lexicographic comparison key of `BookingRequest` under Python's
`dataclass(order=True)`: first `sort_index = (priority, request_time,
user_id, resource_id)`, then the remaining fields in declaration order
(`request_id` first, which already makes the order total; repeated fields
never influence the comparison). -/
abbrev RKey :=
  Lex (Nat × Lex (Nat × Lex (Nat × Lex (Nat × Lex (Nat × Lex (Nat × Nat))))))

def rkey (r : Request) : RKey :=
  toLex (r.priority, toLex (r.request_time, toLex (r.user_id, toLex (r.resource_id,
    toLex (r.request_id, toLex (r.start_time, r.end_time))))))

def reqLE (a b : Request) : Prop := rkey a ≤ rkey b

instance : DecidableRel reqLE :=
  fun a b => inferInstanceAs (Decidable (rkey a ≤ rkey b))

instance : IsTotal Request reqLE := ⟨fun a b => le_total (rkey a) (rkey b)⟩

instance : IsTrans Request reqLE := ⟨fun _ _ _ hab hbc => le_trans hab hbc⟩

/-- `allocations[rid].sort(key=lambda b: b.start_time)`: stable sort by start
time (insertion sort is stable, like Python's `list.sort`). -/
def bookLE (x y : Booking) : Prop := x.start_time ≤ y.start_time

instance : DecidableRel bookLE :=
  fun x y => inferInstanceAs (Decidable (x.start_time ≤ y.start_time))

def sortByStart (l : List Booking) : List Booking := List.insertionSort bookLE l

/-- The `Scheduler` object's state (`src/scheduler.py`).  `request_heap` and
`waiting_queue` hold requests; `next_id` feeds fresh identifiers (modelling
`uuid.uuid4()`). -/
structure State where
  users : List (Nat × User)
  resources : List (Nat × SResource)
  bookings : List (Nat × Booking)
  allocations : List (Nat × List Booking)
  request_heap : List Request
  waiting_queue : List Request
  next_id : Nat
deriving DecidableEq, Repr

def init : State := ⟨[], [], [], [], [], [], 0⟩

/-- Python's `str.lower()`, written as a structural map over the characters
(the role strings involved are ASCII). -/
def lowerString (s : String) : String := String.mk (s.data.map Char.toLower)

/-- `priority = 0 if role.lower() == "faculty" else 1` in `Scheduler.add_user`. -/
def priority_for_role (role : String) : Nat :=
  if lowerString role = "faculty" then 0 else 1

/-- `Scheduler.add_user`. -/
def add_user (s : State) (name role : String) : State × Nat :=
  let uid := s.next_id
  let u : User := ⟨uid, name, role, priority_for_role role⟩
  ({ s with users := s.users ++ [(uid, u)], next_id := uid + 1 }, uid)

/-- `Scheduler.add_resource`. -/
def add_resource (s : State) (name : String) (capacity : Option Nat) :
    State × Nat :=
  let rid := s.next_id
  let r : SResource := ⟨rid, name, capacity⟩
  ({ s with resources := s.resources ++ [(rid, r)],
            allocations := s.allocations ++ [(rid, [])],
            next_id := rid + 1 }, rid)

def defaultUser : User := ⟨0, "", "", 0⟩

/-- `self.users[uid].priority` (total via a default; in every state where it
is consulted the user exists, having been validated on entry). -/
def priorityOf (users : List (Nat × User)) (uid : Nat) : Nat :=
  ((alookup users uid).getD defaultUser).priority

def nameOf (users : List (Nat × User)) (uid : Nat) : String :=
  ((alookup users uid).getD defaultUser).name

/-- The conflict scan in `Scheduler._attempt_allocate`: the sublist of
existing bookings overlapping the candidate range. -/
def conflictsWith (a_start a_end : Nat) (l : List Booking) : List Booking :=
  l.filter (fun b => is_overlap a_start a_end b.start_time b.end_time)

/-- Errors raised by `Scheduler.request_booking` (`ValueError` with the
distinct messages "Invalid user", "Invalid resource", "Invalid time window"). -/
inductive VError
  | unknownUser
  | unknownResource
  | invalidRange
deriving DecidableEq, Repr

/-- Return values of `Scheduler._attempt_allocate`: the
`"CONFIRMED: <id> (preempted: ...)"` and `"WAITLISTED: <id>"` strings. -/
inductive Outcome where
  | confirmed (booking_id : Nat) (preempted_names : List String)
  | waitlisted (request_id : Nat)
deriving DecidableEq, Repr

/-- One iteration of the preemption loop in `Scheduler._attempt_allocate`:
drop the preempted booking from both registries and re-enqueue its owner as a
fresh waitlisted request timestamped `now` (`datetime.utcnow()`). -/
def preemptOne (rid now : Nat) (s : State) (preempted : Booking) : State :=
  let preempted_req : Request :=
    ⟨s.next_id, preempted.user_id, preempted.resource_id, preempted.start_time,
     preempted.end_time, now, priorityOf s.users preempted.user_id⟩
  { s with bookings := s.bookings.filter (fun p => p.1 ≠ preempted.booking_id),
           allocations := updA s.allocations rid (fun l => l.erase preempted),
           waiting_queue := s.waiting_queue ++ [preempted_req],
           next_id := s.next_id + 1 }

/-- `Scheduler._attempt_allocate`.  `heapq.heappop` returns the least request
under the (total) `BookingRequest` order, modelled by taking the head of the
insertion-sorted heap contents. -/
def attempt_allocate (now : Nat) (s : State) : State × Option Outcome :=
  match List.insertionSort reqLE s.request_heap with
  | [] => (s, none)
  | req :: rest =>
    let s0 : State := { s with request_heap := rest }
    let existing := (alookup s0.allocations req.resource_id).getD []
    let conflicting := conflictsWith req.start_time req.end_time existing
    if conflicting = [] then
      let bid := s0.next_id
      let bk : Booking := ⟨bid, req.user_id, req.resource_id, req.start_time, req.end_time⟩
      ({ s0 with bookings := s0.bookings ++ [(bid, bk)],
                 allocations := updA s0.allocations req.resource_id
                   (fun l => sortByStart (l ++ [bk])),
                 next_id := bid + 1 },
       some (.confirmed bid []))
    else
      let rp := priorityOf s0.users req.user_id
      let preempted := conflicting.filter (fun b => decide (rp < priorityOf s0.users b.user_id))
      if preempted = [] then
        ({ s0 with waiting_queue := s0.waiting_queue ++ [req] },
         some (.waitlisted req.request_id))
      else
        let s1 := preempted.foldl (preemptOne req.resource_id now) s0
        let bid := s1.next_id
        let bk : Booking := ⟨bid, req.user_id, req.resource_id, req.start_time, req.end_time⟩
        let s2 : State :=
          { s1 with bookings := s1.bookings ++ [(bid, bk)],
                    allocations := updA s1.allocations req.resource_id
                      (fun l => sortByStart (l ++ [bk])),
                    next_id := bid + 1 }
        (s2, some (.confirmed bid (preempted.map (fun b => nameOf s2.users b.user_id))))

/-- `Scheduler.request_booking`. -/
def request_booking (s : State) (now uid rid a b : Nat) :
    Except VError (State × Option Outcome) :=
  match alookup s.users uid with
  | none => .error .unknownUser
  | some u =>
    if (alookup s.resources rid).isNone then .error .unknownResource
    else if b ≤ a then .error .invalidRange
    else
      let req : Request := ⟨s.next_id, uid, rid, a, b, now, u.priority⟩
      let s1 : State :=
        { s with request_heap := s.request_heap ++ [req], next_id := s.next_id + 1 }
      .ok (attempt_allocate now s1)

/-- The conflict test of the promotion loop in `Scheduler._promote_waiting`. -/
def hasConflict (s : State) (r : Request) : Bool :=
  ((alookup s.allocations r.resource_id).getD []).any
    (fun b => is_overlap r.start_time r.end_time b.start_time b.end_time)

/-- The `while temp:` loop of `Scheduler._promote_waiting`, processing waiting
requests in heap (priority) order: a conflict-free request is admitted (new
booking in both registries, no re-sort), a conflicting one is put back on the
waiting queue unchanged. -/
def promote_go (s : State) : List Request → State
  | [] => s
  | req :: rest =>
    if hasConflict s req then
      promote_go { s with waiting_queue := s.waiting_queue ++ [req] } rest
    else
      let bid := s.next_id
      let bk : Booking := ⟨bid, req.user_id, req.resource_id, req.start_time, req.end_time⟩
      promote_go
        { s with bookings := s.bookings ++ [(bid, bk)],
                 allocations := updA s.allocations req.resource_id (fun l => l ++ [bk]),
                 next_id := bid + 1 } rest

/-- `Scheduler._promote_waiting`: drain a heapified copy of the waiting queue. -/
def promote_waiting (s : State) : State :=
  promote_go { s with waiting_queue := [] } (List.insertionSort reqLE s.waiting_queue)

/-- `Scheduler.cancel_booking` (raises `ValueError("Invalid booking ID")` for
unknown ids, modelled by `.error ()`; note it takes no calling user). -/
def cancel_booking (s : State) (bid : Nat) : Except Unit State :=
  match alookup s.bookings bid with
  | none => .error ()
  | some bk =>
    let s1 : State :=
      { s with bookings := s.bookings.filter (fun p => p.1 ≠ bid),
               allocations := updA s.allocations bk.resource_id
                 (fun l => l.filter (fun b => b.booking_id ≠ bid)) }
    .ok (promote_waiting s1)

/-- The public operations of the heap engine. -/
inductive Op where
  | addUser (name role : String)
  | addResource (name : String) (capacity : Option Nat)
  | reqBooking (now uid rid a b : Nat)
  | cancel (bid : Nat)
deriving Repr

/-- Apply one operation; a raised `ValueError` leaves the store untouched
(the Python checks run before any mutation). -/
def applyOp (s : State) : Op → State
  | .addUser n r => (add_user s n r).1
  | .addResource n c => (add_resource s n c).1
  | .reqBooking now u r a b =>
    match request_booking s now u r a b with
    | .ok p => p.1
    | .error _ => s
  | .cancel bid =>
    match cancel_booking s bid with
    | .ok s1 => s1
    | .error _ => s

/-- States reachable from the empty store by the public operations. -/
inductive Reachable : State → Prop where
  | base : Reachable init
  | step : ∀ {s : State} (op : Op), Reachable s → Reachable (applyOp s op)

def runOps (ops : List Op) : State := ops.foldl applyOp init

theorem reachable_runOps (ops : List Op) : Reachable (runOps ops) := by
  suffices h : ∀ s, Reachable s → Reachable (ops.foldl applyOp s) from
    h init .base
  induction ops with
  | nil => exact fun s hs => hs
  | cons op rest ih => exact fun s hs => ih _ (.step op hs)

/-- Pairwise conflict-freedom of one resource's allocation list. -/
def rangesDisjoint : List Booking → Bool
  | [] => true
  | b :: bs =>
    bs.all (fun c => !is_overlap b.start_time b.end_time c.start_time c.end_time)
      && rangesDisjoint bs

/-- The spec's conflict-freedom invariant, stated over the whole store. -/
def conflict_free (s : State) : Bool :=
  s.allocations.all (fun q => rangesDisjoint q.2)

/-!  Facts about one promotion pass (`_promote_waiting`), shared by several
claim theorems: the pass only appends bookings, keeps leftover waiting-queue
entries verbatim in processed (priority) order, and leaves only entries that
conflict with the final booking set. -/

/-- The allocation list consulted for a resource (empty when absent). -/
def allocListD (s : State) (rid : Nat) : List Booking :=
  (alookup s.allocations rid).getD []

theorem hasConflict_eq (s : State) (r : Request) :
    hasConflict s r =
      (allocListD s r.resource_id).any
        (fun b => is_overlap r.start_time r.end_time b.start_time b.end_time) := rfl

/-- The admission branch of the promotion loop as a function of the state. -/
def promoteStep (s : State) (req : Request) : State :=
  let bk : Booking := ⟨s.next_id, req.user_id, req.resource_id, req.start_time, req.end_time⟩
  { s with bookings := s.bookings ++ [(s.next_id, bk)],
           allocations := updA s.allocations req.resource_id (fun l => l ++ [bk]),
           next_id := s.next_id + 1 }

theorem promote_go_eq_step (s : State) (req : Request) (rest : List Request)
    (hc : ¬ hasConflict s req = true) :
    promote_go s (req :: rest) = promote_go (promoteStep s req) rest := by
  simp only [promote_go, if_neg hc, promoteStep]

theorem getD_updA_append (al : List (Nat × List Booking)) (rid : Nat)
    (bk : Booking) (j : Nat) :
    ∃ t, (alookup (updA al rid (fun l => l ++ [bk])) j).getD [] =
         (alookup al j).getD [] ++ t := by
  rw [alookup_updA]
  by_cases h : j = rid
  · cases hal : alookup al j with
    | none => exact ⟨[], by simp [h, hal]⟩
    | some l => exact ⟨[bk], by simp [h, hal]⟩
  · exact ⟨[], by simp [h]⟩

theorem any_overlap_mono {l t : List Booking} {a b : Nat}
    (h : l.any (fun c => is_overlap a b c.start_time c.end_time) = true) :
    (l ++ t).any (fun c => is_overlap a b c.start_time c.end_time) = true := by
  rw [List.any_append]
  simp [h]

theorem allocListD_promoteStep (s : State) (req : Request) (j : Nat) :
    ∃ t, allocListD (promoteStep s req) j = allocListD s j ++ t := by
  unfold promoteStep allocListD
  exact getD_updA_append s.allocations req.resource_id _ j

theorem hasConflict_promoteStep (s : State) (req r : Request)
    (h : hasConflict s r = true) : hasConflict (promoteStep s req) r = true := by
  obtain ⟨t, ht⟩ := allocListD_promoteStep s req r.resource_id
  rw [hasConflict_eq, ht]
  exact any_overlap_mono (by rw [← hasConflict_eq]; exact h)

theorem promote_go_alloc (temp : List Request) (s : State) (j : Nat) :
    ∃ t, allocListD (promote_go s temp) j = allocListD s j ++ t := by
  induction temp generalizing s with
  | nil => exact ⟨[], by simp [promote_go]⟩
  | cons req rest ih =>
      by_cases hc : hasConflict s req = true
      · simp only [promote_go, if_pos hc]
        exact ih _
      · rw [promote_go_eq_step s req rest hc]
        obtain ⟨t1, ht1⟩ := ih (promoteStep s req)
        obtain ⟨t0, ht0⟩ := allocListD_promoteStep s req j
        exact ⟨t0 ++ t1, by rw [ht1, ht0, List.append_assoc]⟩

theorem hasConflict_promote_go (temp : List Request) (s : State) (r : Request)
    (h : hasConflict s r = true) :
    hasConflict (promote_go s temp) r = true := by
  obtain ⟨t, ht⟩ := promote_go_alloc temp s r.resource_id
  rw [hasConflict_eq, ht]
  exact any_overlap_mono (by rw [← hasConflict_eq]; exact h)

theorem promote_go_wq (temp : List Request) (s : State) :
    ∃ w, (promote_go s temp).waiting_queue = s.waiting_queue ++ w ∧ List.Sublist w temp := by
  induction temp generalizing s with
  | nil => exact ⟨[], by simp [promote_go]⟩
  | cons req rest ih =>
      by_cases hc : hasConflict s req = true
      · simp only [promote_go, if_pos hc]
        obtain ⟨w, hw, hs⟩ := ih { s with waiting_queue := s.waiting_queue ++ [req] }
        refine ⟨req :: w, ?_, hs.cons₂ req⟩
        rw [hw]
        simp
      · rw [promote_go_eq_step s req rest hc]
        obtain ⟨w, hw, hs⟩ := ih (promoteStep s req)
        exact ⟨w, hw, hs.cons req⟩

theorem promote_go_bookings (temp : List Request) (s : State) :
    ∃ t, (promote_go s temp).bookings = s.bookings ++ t := by
  induction temp generalizing s with
  | nil => exact ⟨[], by simp [promote_go]⟩
  | cons req rest ih =>
      by_cases hc : hasConflict s req = true
      · simp only [promote_go, if_pos hc]
        exact ih _
      · rw [promote_go_eq_step s req rest hc]
        obtain ⟨t1, ht1⟩ := ih (promoteStep s req)
        refine ⟨(s.next_id, ⟨s.next_id, req.user_id, req.resource_id, req.start_time, req.end_time⟩) :: t1, ?_⟩
        rw [ht1]
        simp [promoteStep]

theorem promote_go_wq_conflict (temp : List Request) (s : State)
    (h0 : ∀ r ∈ s.waiting_queue, hasConflict s r = true) :
    ∀ r ∈ (promote_go s temp).waiting_queue,
      hasConflict (promote_go s temp) r = true := by
  induction temp generalizing s with
  | nil => simpa [promote_go] using h0
  | cons req rest ih =>
      by_cases hc : hasConflict s req = true
      · simp only [promote_go, if_pos hc]
        apply ih
        intro r hr
        rcases List.mem_append.mp hr with h | h
        · exact h0 r h
        · simp only [List.mem_singleton] at h
          subst h
          exact hc
      · rw [promote_go_eq_step s req rest hc]
        apply ih
        intro r hr
        exact hasConflict_promoteStep s req r (h0 r hr)

theorem promote_go_all_conflict (temp : List Request) (s : State)
    (h : ∀ r ∈ temp, hasConflict s r = true) :
    promote_go s temp = { s with waiting_queue := s.waiting_queue ++ temp } := by
  induction temp generalizing s with
  | nil => simp [promote_go]
  | cons req rest ih =>
      have hc : hasConflict s req = true := h req (by simp)
      simp only [promote_go, if_pos hc]
      rw [ih { s with waiting_queue := s.waiting_queue ++ [req] }
            (fun r hr => h r (List.mem_cons_of_mem _ hr))]
      simp

theorem promote_go_mem (temp : List Request) (s : State) :
    ∀ r ∈ temp, r ∈ (promote_go s temp).waiting_queue ∨
      ∃ p ∈ (promote_go s temp).bookings,
        (p : Nat × Booking).2.user_id = r.user_id ∧ p.2.resource_id = r.resource_id ∧
        p.2.start_time = r.start_time ∧ p.2.end_time = r.end_time := by
  induction temp generalizing s with
  | nil => simp
  | cons req rest ih =>
      intro r hr
      by_cases hc : hasConflict s req = true
      · simp only [promote_go, if_pos hc]
        rcases List.mem_cons.mp hr with h | h
        · subst h
          left
          obtain ⟨w, hw, _⟩ := promote_go_wq rest
            { s with waiting_queue := s.waiting_queue ++ [r] }
          rw [hw]
          simp
        · exact ih _ r h
      · rw [promote_go_eq_step s req rest hc]
        rcases List.mem_cons.mp hr with h | h
        · subst h
          right
          obtain ⟨t, ht⟩ := promote_go_bookings rest (promoteStep s r)
          refine ⟨(s.next_id, ⟨s.next_id, r.user_id, r.resource_id, r.start_time, r.end_time⟩),
                  ?_, rfl, rfl, rfl, rfl⟩
          rw [ht]
          simp [promoteStep]
        · exact ih _ r h

theorem attempt_allocate_of_ne_nil (now : Nat) (s : State) (h : s.request_heap ≠ []) :
    ∃ s1 o, attempt_allocate now s = (s1, some o) := by
  unfold attempt_allocate
  rcases hs : List.insertionSort reqLE s.request_heap with _ | ⟨req, rest⟩
  · have hperm := List.perm_insertionSort reqLE s.request_heap
    rw [hs] at hperm
    exact absurd hperm.symm.eq_nil h
  · simp only
    split
    · exact ⟨_, _, rfl⟩
    · split
      · exact ⟨_, _, rfl⟩
      · exact ⟨_, _, rfl⟩

/-!  The inductive store invariant of the heap engine, shared by the
reachable-state claim theorems: the heap is empty between operations, keys
index their records, identifiers are below the freshness counter and unique,
each resource's allocation list mirrors the global booking index, and every
waitlisted request targets a registered resource's allocation key. -/

structure Inv (s : State) : Prop where
  heap_empty : s.request_heap = []
  bkey : ∀ p ∈ s.bookings, Prod.fst p = (Prod.snd p).booking_id
  bkey_lt : ∀ p ∈ s.bookings, Prod.fst p < s.next_id
  bkeys_nodup : (s.bookings.map Prod.fst).Nodup
  akey_lt : ∀ q ∈ s.allocations, Prod.fst q < s.next_id
  akeys_nodup : (s.allocations.map Prod.fst).Nodup
  res_alloc : ∀ p ∈ s.resources, (alookup s.allocations (Prod.fst p)).isSome = true
  a_res : ∀ q ∈ s.allocations, ∀ b ∈ Prod.snd q, b.resource_id = Prod.fst q
  a_in_b : ∀ q ∈ s.allocations, ∀ b ∈ Prod.snd q, (b.booking_id, b) ∈ s.bookings
  b_in_a : ∀ p ∈ s.bookings,
    ∃ l, alookup s.allocations (Prod.snd p).resource_id = some l ∧ Prod.snd p ∈ l
  a_ids_nodup : ∀ q ∈ s.allocations, ((Prod.snd q).map Booking.booking_id).Nodup
  wq_alloc : ∀ r ∈ s.waiting_queue, (alookup s.allocations r.resource_id).isSome = true

theorem inv_init : Inv init := by
  refine ⟨rfl, ?_, ?_, ?_, ?_, ?_, ?_, ?_, ?_, ?_, ?_, ?_⟩ <;> simp [init]

theorem inv_add_user (s : State) (n r : String) (hinv : Inv s) :
    Inv (add_user s n r).1 := by
  obtain ⟨h1, h2, h3, h4, h5, h6, h7, h8, h9, h10, h11, h12⟩ := hinv
  exact ⟨h1, h2, fun p hp => Nat.lt_succ_of_lt (h3 p hp), h4,
         fun q hq => Nat.lt_succ_of_lt (h5 q hq), h6, h7, h8, h9, h10, h11, h12⟩

theorem inv_add_resource (s : State) (n : String) (c : Option Nat) (hinv : Inv s) :
    Inv (add_resource s n c).1 := by
  obtain ⟨h1, h2, h3, h4, h5, h6, h7, h8, h9, h10, h11, h12⟩ := hinv
  have hfresh : alookup s.allocations s.next_id = none :=
    alookup_eq_none (fun q hq => Nat.ne_of_lt (h5 q hq))
  show Inv { s with resources := s.resources ++ [(s.next_id, ⟨s.next_id, n, c⟩)],
                    allocations := s.allocations ++ [(s.next_id, [])],
                    next_id := s.next_id + 1 }
  refine ⟨h1, h2, fun p hp => Nat.lt_succ_of_lt (h3 p hp), h4, ?_, ?_, ?_, ?_, ?_, ?_, ?_, ?_⟩
  · intro q hq
    rcases List.mem_append.mp hq with h | h
    · exact Nat.lt_succ_of_lt (h5 q h)
    · simp only [List.mem_singleton] at h
      subst h
      exact Nat.lt_succ_self _
  · show ((s.allocations ++ [(s.next_id, [])]).map Prod.fst).Nodup
    rw [List.map_append, List.nodup_append]
    refine ⟨h6, List.nodup_singleton _, ?_⟩
    intro x hx hx2
    simp only [List.map_cons, List.map_nil, List.mem_singleton] at hx2
    subst hx2
    obtain ⟨q, hq, hqeq⟩ := List.mem_map.mp hx
    exact Nat.lt_irrefl _ (hqeq ▸ h5 q hq)
  · intro p hp
    rcases List.mem_append.mp hp with h | h
    · exact alookup_append_isSome_left _ (h7 p h)
    · simp only [List.mem_singleton] at h
      subst h
      show (alookup (s.allocations ++ [(s.next_id, [])]) s.next_id).isSome = true
      rw [alookup_append_of_none hfresh]
      simp [alookup]
  · intro q hq b hb
    rcases List.mem_append.mp hq with h | h
    · exact h8 q h b hb
    · simp only [List.mem_singleton] at h
      subst h
      simp at hb
  · intro q hq b hb
    rcases List.mem_append.mp hq with h | h
    · exact h9 q h b hb
    · simp only [List.mem_singleton] at h
      subst h
      simp at hb
  · intro p hp
    obtain ⟨l, hl, hmem⟩ := h10 p hp
    refine ⟨l, ?_, hmem⟩
    show alookup (s.allocations ++ [(s.next_id, [])]) p.2.resource_id = some l
    rw [alookup_append, hl]
  · intro q hq
    rcases List.mem_append.mp hq with h | h
    · exact h11 q h
    · simp only [List.mem_singleton] at h
      subst h
      simp
  · intro r hr
    exact alookup_append_isSome_left _ (h12 r hr)

/-- Inserting a brand-new booking (id `s.next_id`) into both registries —
optionally re-sorting the resource's list with a permutation `G`, as the
admission paths do with `sortByStart` and the promotion path does not —
preserves the store invariant. -/
theorem inv_insert_booking (s : State) (G : List Booking → List Booking)
    (hG : ∀ l, List.Perm (G l) l) (uid rid a b : Nat)
    (hsome : (alookup s.allocations rid).isSome = true) (hinv : Inv s) :
    Inv { s with
            bookings := s.bookings ++ [(s.next_id, ⟨s.next_id, uid, rid, a, b⟩)],
            allocations := updA s.allocations rid
                             (fun l0 => G (l0 ++ [⟨s.next_id, uid, rid, a, b⟩])),
            next_id := s.next_id + 1 } := by
  obtain ⟨h1, h2, h3, h4, h5, h6, h7, h8, h9, h10, h11, h12⟩ := hinv
  refine ⟨h1, ?_, ?_, ?_, ?_, ?_, ?_, ?_, ?_, ?_, ?_, ?_⟩
  · dsimp only
    intro p hp
    rcases List.mem_append.mp hp with h | h
    · exact h2 p h
    · simp only [List.mem_singleton] at h
      subst h
      rfl
  · dsimp only
    intro p hp
    rcases List.mem_append.mp hp with h | h
    · exact Nat.lt_succ_of_lt (h3 p h)
    · simp only [List.mem_singleton] at h
      subst h
      exact Nat.lt_succ_self _
  · dsimp only
    rw [List.map_append, List.nodup_append]
    refine ⟨h4, List.nodup_singleton _, ?_⟩
    intro x hx hx2
    simp only [List.map_cons, List.map_nil, List.mem_singleton] at hx2
    subst hx2
    obtain ⟨p, hp, hpe⟩ := List.mem_map.mp hx
    exact Nat.lt_irrefl _ (hpe ▸ h3 p hp)
  · dsimp only
    intro q hq
    rcases mem_updA hq with ⟨hq1, _⟩ | ⟨p, hp, _, hq2⟩
    · exact Nat.lt_succ_of_lt (h5 q hq1)
    · rw [hq2]
      exact Nat.lt_succ_of_lt (h5 p hp)
  · dsimp only
    rw [updA_map_fst]
    exact h6
  · dsimp only
    intro p hp
    rw [alookup_isSome_updA]
    exact h7 p hp
  · dsimp only
    intro q hq bb hb
    rcases mem_updA hq with ⟨hq1, _⟩ | ⟨p, hp, hpk, hq2⟩
    · exact h8 q hq1 bb hb
    · rw [hq2] at hb ⊢
      have hb2 : bb ∈ p.2 ++ [(⟨s.next_id, uid, rid, a, b⟩ : Booking)] :=
        (hG _).mem_iff.mp hb
      rcases List.mem_append.mp hb2 with hb3 | hb3
      · exact h8 p hp bb hb3
      · simp only [List.mem_singleton] at hb3
        subst hb3
        exact hpk.symm
  · dsimp only
    intro q hq bb hb
    rcases mem_updA hq with ⟨hq1, _⟩ | ⟨p, hp, hpk, hq2⟩
    · exact List.mem_append_left _ (h9 q hq1 bb hb)
    · rw [hq2] at hb
      have hb2 : bb ∈ p.2 ++ [(⟨s.next_id, uid, rid, a, b⟩ : Booking)] :=
        (hG _).mem_iff.mp hb
      rcases List.mem_append.mp hb2 with hb3 | hb3
      · exact List.mem_append_left _ (h9 p hp bb hb3)
      · simp only [List.mem_singleton] at hb3
        subst hb3
        exact List.mem_append_right _ (by simp)
  · dsimp only
    intro p hp
    rcases List.mem_append.mp hp with h | h
    · obtain ⟨l, hl, hmem⟩ := h10 p h
      by_cases hr : p.2.resource_id = rid
      · refine ⟨G (l ++ [⟨s.next_id, uid, rid, a, b⟩]), ?_, ?_⟩
        · rw [alookup_updA, if_pos hr, hl]
          rfl
        · exact (hG _).mem_iff.mpr (List.mem_append_left _ hmem)
      · refine ⟨l, ?_, hmem⟩
        rw [alookup_updA, if_neg hr]
        exact hl
    · simp only [List.mem_singleton] at h
      subst h
      obtain ⟨l0, hl0⟩ := Option.isSome_iff_exists.mp hsome
      refine ⟨G (l0 ++ [⟨s.next_id, uid, rid, a, b⟩]), ?_, ?_⟩
      · dsimp only
        rw [alookup_updA, if_pos rfl, hl0]
        rfl
      · exact (hG _).mem_iff.mpr (List.mem_append_right _ (by simp))
  · dsimp only
    intro q hq
    rcases mem_updA hq with ⟨hq1, _⟩ | ⟨p, hp, _, hq2⟩
    · exact h11 q hq1
    · rw [hq2]
      refine (((hG _).map Booking.booking_id).nodup_iff).mpr ?_
      rw [List.map_append, List.nodup_append]
      refine ⟨h11 p hp, by simp, ?_⟩
      intro x hx hx2
      simp only [List.map_cons, List.map_nil, List.mem_singleton] at hx2
      subst hx2
      obtain ⟨bb, hbb, hbbe⟩ := List.mem_map.mp hx
      have hlt := h3 _ (h9 p hp bb hbb)
      exact Nat.lt_irrefl _ (hbbe ▸ hlt)
  · dsimp only
    intro r hr
    rw [alookup_isSome_updA]
    exact h12 r hr

/-- Removing a booking (by key from the global index, and by id from its
resource's allocation list) preserves the store invariant.  This is the
store mutation of `cancel_booking` before the promotion pass. -/
theorem inv_remove (s : State) (bid : Nat) (bk : Booking)
    (h : alookup s.bookings bid = some bk) (hinv : Inv s) :
    Inv { s with bookings := s.bookings.filter (fun p => p.1 ≠ bid),
                 allocations := updA s.allocations bk.resource_id
                   (fun l => l.filter (fun b => b.booking_id ≠ bid)) } := by
  obtain ⟨h1, h2, h3, h4, h5, h6, h7, h8, h9, h10, h11, h12⟩ := hinv
  refine ⟨h1, ?_, ?_, ?_, ?_, ?_, ?_, ?_, ?_, ?_, ?_, ?_⟩
  · dsimp only
    intro p hp
    exact h2 p (List.mem_of_mem_filter hp)
  · dsimp only
    intro p hp
    exact h3 p (List.mem_of_mem_filter hp)
  · dsimp only
    exact h4.sublist (map_fst_filter_sublist _ _)
  · dsimp only
    intro q hq
    rcases mem_updA hq with ⟨hq1, _⟩ | ⟨p, hp, _, hq2⟩
    · exact h5 q hq1
    · rw [hq2]
      exact h5 p hp
  · dsimp only
    rw [updA_map_fst]
    exact h6
  · dsimp only
    intro p hp
    rw [alookup_isSome_updA]
    exact h7 p hp
  · dsimp only
    intro q hq bb hb
    rcases mem_updA hq with ⟨hq1, _⟩ | ⟨p, hp, hpk, hq2⟩
    · exact h8 q hq1 bb hb
    · rw [hq2] at hb ⊢
      exact h8 p hp bb (List.mem_of_mem_filter hb)
  · dsimp only
    intro q hq bb hb
    rcases mem_updA hq with ⟨hq1, hqne⟩ | ⟨p, hp, hpk, hq2⟩
    · have hbb := h9 q hq1 bb hb
      apply mem_filter_of_ne hbb
      intro hbid
      have hsome : alookup s.bookings bb.booking_id = some bb :=
        alookup_of_mem_nodup hbb h4
      rw [hbid, h] at hsome
      have hbbk : bb = bk := (Option.some.inj hsome).symm
      subst hbbk
      exact hqne (h8 q hq1 bb hb ▸ rfl)
    · rw [hq2] at hb
      have hb1 := List.mem_of_mem_filter hb
      have hbb := h9 p hp bb hb1
      apply mem_filter_of_ne hbb
      simpa using List.of_mem_filter hb
  · dsimp only
    intro p hp
    have hp1 := List.mem_of_mem_filter hp
    have hpne : p.1 ≠ bid := by simpa using List.of_mem_filter hp
    obtain ⟨l, hl, hmeml⟩ := h10 p hp1
    by_cases hr : p.2.resource_id = bk.resource_id
    · refine ⟨l.filter (fun b => b.booking_id ≠ bid), ?_, ?_⟩
      · rw [alookup_updA, if_pos hr, hl]
        rfl
      · refine List.mem_filter.mpr ⟨hmeml, ?_⟩
        have hkey := h2 p hp1
        simp [← hkey, hpne]
    · refine ⟨l, ?_, hmeml⟩
      rw [alookup_updA, if_neg hr]
      exact hl
  · dsimp only
    intro q hq
    rcases mem_updA hq with ⟨hq1, _⟩ | ⟨p, hp, _, hq2⟩
    · exact h11 q hq1
    · rw [hq2]
      exact (h11 p hp).sublist ((List.filter_sublist _).map _)
  · dsimp only
    intro r hr
    rw [alookup_isSome_updA]
    exact h12 r hr

/-- One preemption (`preemptOne`) preserves the store invariant, keeps the
allocation keys, and erases exactly the preempted booking from its
resource's list. -/
theorem inv_preemptOne (rid now : Nat) (s : State) (bk : Booking)
    (hinv : Inv s) (hmem : bk ∈ allocListD s rid) (hres : bk.resource_id = rid) :
    Inv (preemptOne rid now s bk) ∧
    (preemptOne rid now s bk).allocations.map Prod.fst = s.allocations.map Prod.fst ∧
    allocListD (preemptOne rid now s bk) rid = (allocListD s rid).erase bk := by
  obtain ⟨h1, h2, h3, h4, h5, h6, h7, h8, h9, h10, h11, h12⟩ := hinv
  unfold allocListD at hmem
  cases hal : alookup s.allocations rid with
  | none => rw [hal] at hmem; simp at hmem
  | some l =>
  rw [hal] at hmem
  simp only [Option.getD_some] at hmem
  have hql : (rid, l) ∈ s.allocations := alookup_mem hal
  have hbk_in_b : (bk.booking_id, bk) ∈ s.bookings := h9 _ hql bk hmem
  have hbk_lookup : alookup s.bookings bk.booking_id = some bk :=
    alookup_of_mem_nodup hbk_in_b h4
  have hlids : (l.map Booking.booking_id).Nodup := h11 _ hql
  have hlnodup : l.Nodup := hlids.of_map
  refine ⟨⟨h1, ?_, ?_, ?_, ?_, ?_, ?_, ?_, ?_, ?_, ?_, ?_⟩, ?_, ?_⟩
  · dsimp only [preemptOne]
    intro p hp
    exact h2 p (List.mem_of_mem_filter hp)
  · dsimp only [preemptOne]
    intro p hp
    exact Nat.lt_succ_of_lt (h3 p (List.mem_of_mem_filter hp))
  · dsimp only [preemptOne]
    exact h4.sublist (map_fst_filter_sublist _ _)
  · dsimp only [preemptOne]
    intro q hq
    rcases mem_updA hq with ⟨hq1, _⟩ | ⟨p, hp, _, hq2⟩
    · exact Nat.lt_succ_of_lt (h5 q hq1)
    · rw [hq2]
      exact Nat.lt_succ_of_lt (h5 p hp)
  · dsimp only [preemptOne]
    rw [updA_map_fst]
    exact h6
  · dsimp only [preemptOne]
    intro p hp
    rw [alookup_isSome_updA]
    exact h7 p hp
  · dsimp only [preemptOne]
    intro q hq bb hb
    rcases mem_updA hq with ⟨hq1, _⟩ | ⟨p, hp, hpk, hq2⟩
    · exact h8 q hq1 bb hb
    · rw [hq2] at hb ⊢
      exact h8 p hp bb (List.mem_of_mem_erase hb)
  · dsimp only [preemptOne]
    intro q hq bb hb
    rcases mem_updA hq with ⟨hq1, hqne⟩ | ⟨p, hp, hpk, hq2⟩
    · have hbb := h9 q hq1 bb hb
      apply mem_filter_of_ne hbb
      intro hbid
      have hsome : alookup s.bookings bb.booking_id = some bb :=
        alookup_of_mem_nodup hbb h4
      rw [hbid, hbk_lookup] at hsome
      have hbbk : bb = bk := (Option.some.inj hsome).symm
      subst hbbk
      exact hqne ((h8 q hq1 bb hb).symm.trans hres ▸ rfl)
    · rw [hq2] at hb
      -- the list at key rid, with bk erased
      have hpl : p.2 = l := by
        have : alookup s.allocations rid = some p.2 :=
          alookup_of_mem_nodup (hpk ▸ (show (p.1, p.2) ∈ s.allocations from hp)) h6
        rw [hal] at this
        exact (Option.some.inj this).symm
      rw [hpl] at hb
      have hb2 : bb ≠ bk ∧ bb ∈ l := (hlnodup.mem_erase_iff).mp hb
      have hbb := h9 _ hql bb hb2.2
      apply mem_filter_of_ne hbb
      intro hbid
      exact hb2.1 (List.inj_on_of_nodup_map hlids hb2.2 hmem hbid)
  · dsimp only [preemptOne]
    intro p hp
    have hp1 := List.mem_of_mem_filter hp
    have hpne : p.1 ≠ bk.booking_id := by simpa using List.of_mem_filter hp
    obtain ⟨l2, hl2, hmem2⟩ := h10 p hp1
    by_cases hr : p.2.resource_id = rid
    · have hll : l2 = l := by
        have hl3 := hl2
        rw [hr, hal] at hl3
        exact (Option.some.inj hl3).symm
      subst hll
      refine ⟨l2.erase bk, ?_, ?_⟩
      · rw [alookup_updA, if_pos hr, hl2]
        rfl
      · refine (List.mem_erase_of_ne ?_).mpr hmem2
        intro hpbk
        exact hpne (by rw [h2 p hp1, hpbk])
    · refine ⟨l2, ?_, hmem2⟩
      rw [alookup_updA, if_neg hr]
      exact hl2
  · dsimp only [preemptOne]
    intro q hq
    rcases mem_updA hq with ⟨hq1, _⟩ | ⟨p, hp, _, hq2⟩
    · exact h11 q hq1
    · rw [hq2]
      exact (h11 p hp).sublist ((List.erase_sublist _ _).map _)
  · dsimp only [preemptOne]
    intro r hr
    rcases List.mem_append.mp hr with h | h
    · rw [alookup_isSome_updA]
      exact h12 r h
    · simp only [List.mem_singleton] at h
      subst h
      rw [alookup_isSome_updA]
      show (alookup s.allocations bk.resource_id).isSome = true
      rw [hres, hal]
      rfl
  · dsimp only [preemptOne]
    rw [updA_map_fst]
  · dsimp only [preemptOne, allocListD]
    rw [alookup_updA, if_pos rfl, hal]
    rfl

/-- Folding the preemption loop over a duplicate-free batch of bookings all
present on the target resource preserves the invariant and the allocation
keys. -/
theorem inv_preempt_fold (rid now : Nat) (preempted : List Booking) :
    ∀ (s : State), Inv s →
    (∀ bk ∈ preempted, bk ∈ allocListD s rid ∧ bk.resource_id = rid) →
    (preempted.map Booking.booking_id).Nodup →
    Inv (preempted.foldl (preemptOne rid now) s) ∧
    (preempted.foldl (preemptOne rid now) s).allocations.map Prod.fst =
      s.allocations.map Prod.fst := by
  induction preempted with
  | nil => exact fun s hinv _ _ => ⟨hinv, rfl⟩
  | cons bk rest ih =>
      intro s hinv hmem hnodup
      obtain ⟨hmv, hres⟩ := hmem bk (by simp)
      obtain ⟨hinv1, hkeys1, hlist1⟩ := inv_preemptOne rid now s bk hinv hmv hres
      simp only [List.map_cons, List.nodup_cons] at hnodup
      have htail : ∀ b ∈ rest,
          b ∈ allocListD (preemptOne rid now s bk) rid ∧ b.resource_id = rid := by
        intro b hb
        obtain ⟨hbl, hbres⟩ := hmem b (List.mem_cons_of_mem _ hb)
        refine ⟨?_, hbres⟩
        rw [hlist1]
        refine (List.mem_erase_of_ne ?_).mpr hbl
        intro hbbk
        subst hbbk
        exact hnodup.1 (List.mem_map.mpr ⟨b, hb, rfl⟩)
      obtain ⟨hinv2, hkeys2⟩ := ih (preemptOne rid now s bk) hinv1 htail hnodup.2
      exact ⟨hinv2, hkeys2.trans hkeys1⟩

theorem inv_heap_bump (s : State) (hinv : Inv s) :
    Inv { s with request_heap := [], next_id := s.next_id + 1 } := by
  obtain ⟨h1, h2, h3, h4, h5, h6, h7, h8, h9, h10, h11, h12⟩ := hinv
  exact ⟨rfl, h2, fun p hp => Nat.lt_succ_of_lt (h3 p hp), h4,
         fun q hq => Nat.lt_succ_of_lt (h5 q hq), h6, h7, h8, h9, h10, h11, h12⟩

theorem inv_wq_append (s : State) (hinv : Inv s) (req : Request)
    (hsome : (alookup s.allocations req.resource_id).isSome = true) :
    Inv { s with waiting_queue := s.waiting_queue ++ [req] } := by
  obtain ⟨h1, h2, h3, h4, h5, h6, h7, h8, h9, h10, h11, h12⟩ := hinv
  refine ⟨h1, h2, h3, h4, h5, h6, h7, h8, h9, h10, h11, ?_⟩
  intro r hr
  rcases List.mem_append.mp hr with h | h
  · exact h12 r h
  · simp only [List.mem_singleton] at h
    subst h
    exact hsome

theorem inv_wq_clear (s : State) (hinv : Inv s) :
    Inv { s with waiting_queue := [] } := by
  obtain ⟨h1, h2, h3, h4, h5, h6, h7, h8, h9, h10, h11, h12⟩ := hinv
  exact ⟨h1, h2, h3, h4, h5, h6, h7, h8, h9, h10, h11, by simp⟩

theorem inv_promote_go (temp : List Request) :
    ∀ (s : State), Inv s →
    (∀ r ∈ temp, (alookup s.allocations r.resource_id).isSome = true) →
    Inv (promote_go s temp) := by
  induction temp with
  | nil =>
      intro s hinv _
      simpa [promote_go] using hinv
  | cons req rest ih =>
      intro s hinv hmem
      by_cases hc : hasConflict s req = true
      · simp only [promote_go, if_pos hc]
        apply ih
        · exact inv_wq_append s hinv req (hmem req (by simp))
        · intro r hr
          exact hmem r (List.mem_cons_of_mem _ hr)
      · rw [promote_go_eq_step s req rest hc]
        apply ih
        · exact inv_insert_booking s (fun l => l) (fun l => List.Perm.refl l)
            req.user_id req.resource_id req.start_time req.end_time
            (hmem req (by simp)) hinv
        · intro r hr
          dsimp only [promoteStep]
          rw [alookup_isSome_updA]
          exact hmem r (List.mem_cons_of_mem _ hr)

theorem inv_promote_waiting (s : State) (hinv : Inv s) : Inv (promote_waiting s) := by
  unfold promote_waiting
  apply inv_promote_go
  · exact inv_wq_clear s hinv
  · intro r hr
    rw [List.mem_insertionSort] at hr
    exact hinv.wq_alloc r hr

/-!  Closed forms of `_attempt_allocate` on a one-element heap, one per
branch (immediate admission, waitlisting, preemption). -/

theorem attempt_allocate_noconflict (now : Nat) (s : State) (req : Request)
    (l : List Booking) (hheap : s.request_heap = [req])
    (hl : alookup s.allocations req.resource_id = some l)
    (hc : conflictsWith req.start_time req.end_time l = []) :
    attempt_allocate now s =
      ({ s with request_heap := [],
                bookings := s.bookings ++
                  [(s.next_id, ⟨s.next_id, req.user_id, req.resource_id,
                                req.start_time, req.end_time⟩)],
                allocations := updA s.allocations req.resource_id
                  (fun l0 => sortByStart (l0 ++
                    [⟨s.next_id, req.user_id, req.resource_id,
                      req.start_time, req.end_time⟩])),
                next_id := s.next_id + 1 },
       some (.confirmed s.next_id [])) := by
  unfold attempt_allocate
  rw [hheap]
  simp only [List.insertionSort, List.orderedInsert]
  dsimp only
  rw [hl]
  simp only [Option.getD_some]
  rw [if_pos hc]

theorem attempt_allocate_waitlist (now : Nat) (s : State) (req : Request)
    (l : List Booking) (hheap : s.request_heap = [req])
    (hl : alookup s.allocations req.resource_id = some l)
    (hc : conflictsWith req.start_time req.end_time l ≠ [])
    (hp : (conflictsWith req.start_time req.end_time l).filter
        (fun b => decide (priorityOf s.users req.user_id <
                          priorityOf s.users b.user_id)) = []) :
    attempt_allocate now s =
      ({ s with request_heap := [],
                waiting_queue := s.waiting_queue ++ [req] },
       some (.waitlisted req.request_id)) := by
  unfold attempt_allocate
  rw [hheap]
  simp only [List.insertionSort, List.orderedInsert]
  dsimp only
  rw [hl]
  simp only [Option.getD_some]
  rw [if_neg hc, if_pos hp]

theorem attempt_allocate_preempt (now : Nat) (s : State) (req : Request)
    (l : List Booking) (hheap : s.request_heap = [req])
    (hl : alookup s.allocations req.resource_id = some l)
    (hp : (conflictsWith req.start_time req.end_time l).filter
        (fun b => decide (priorityOf s.users req.user_id <
                          priorityOf s.users b.user_id)) ≠ []) :
    attempt_allocate now s =
      (let preempted := (conflictsWith req.start_time req.end_time l).filter
          (fun b => decide (priorityOf s.users req.user_id <
                            priorityOf s.users b.user_id));
       let s1 := preempted.foldl (preemptOne req.resource_id now)
          { s with request_heap := [] };
       let s2 : State :=
          { s1 with
              bookings := s1.bookings ++
                            [(s1.next_id, ⟨s1.next_id, req.user_id, req.resource_id,
                                           req.start_time, req.end_time⟩)],
              allocations := updA s1.allocations req.resource_id
                               (fun l0 => sortByStart (l0 ++
                                 [⟨s1.next_id, req.user_id, req.resource_id,
                                   req.start_time, req.end_time⟩])),
              next_id := s1.next_id + 1 };
       (s2, some (.confirmed s1.next_id
          (preempted.map (fun b => nameOf s2.users b.user_id))))) := by
  have hc : conflictsWith req.start_time req.end_time l ≠ [] := by
    intro hnil
    exact hp (by rw [hnil]; rfl)
  unfold attempt_allocate
  rw [hheap]
  simp only [List.insertionSort, List.orderedInsert]
  dsimp only
  rw [hl]
  simp only [Option.getD_some]
  rw [if_neg hc, if_neg hp]

theorem sortByStart_perm (l : List Booking) : List.Perm (sortByStart l) l :=
  List.perm_insertionSort bookLE l

theorem inv_request_booking (s : State) (now uid rid a b : Nat) (hinv : Inv s)
    (p : State × Option Outcome)
    (hp : request_booking s now uid rid a b = .ok p) : Inv p.1 := by
  unfold request_booking at hp
  cases hu : alookup s.users uid with
  | none => rw [hu] at hp; cases hp
  | some u =>
    rw [hu] at hp
    dsimp only at hp
    by_cases hr : (alookup s.resources rid).isNone
    · rw [if_pos hr] at hp
      cases hp
    · rw [if_neg hr] at hp
      by_cases hba : b ≤ a
      · rw [if_pos hba] at hp
        cases hp
      · rw [if_neg hba] at hp
        have hp2 := Except.ok.inj hp
        have hrs : (alookup s.resources rid).isSome = true := by
          cases hres : alookup s.resources rid
          · exact absurd (by rw [hres]; rfl) hr
          · rfl
        obtain ⟨r0, hr0⟩ := Option.isSome_iff_exists.mp hrs
        have hsome_alloc : (alookup s.allocations rid).isSome = true :=
          hinv.res_alloc _ (alookup_mem hr0)
        obtain ⟨l, hl⟩ := Option.isSome_iff_exists.mp hsome_alloc
        have hBinv : Inv { s with request_heap := [], next_id := s.next_id + 1 } :=
          inv_heap_bump s hinv
        have hheap1 : ({ s with
            request_heap := s.request_heap ++ [⟨s.next_id, uid, rid, a, b, now, u.priority⟩],
            next_id := s.next_id + 1 } : State).request_heap =
            [(⟨s.next_id, uid, rid, a, b, now, u.priority⟩ : Request)] := by
          dsimp only
          simp [hinv.heap_empty]
        have hl1 : alookup ({ s with
            request_heap := s.request_heap ++ [⟨s.next_id, uid, rid, a, b, now, u.priority⟩],
            next_id := s.next_id + 1 } : State).allocations
            (⟨s.next_id, uid, rid, a, b, now, u.priority⟩ : Request).resource_id = some l := hl
        by_cases hcc : conflictsWith a b l = []
        · rw [attempt_allocate_noconflict now _ _ l hheap1 hl1 hcc] at hp2
          subst hp2
          dsimp only
          exact inv_insert_booking { s with request_heap := [], next_id := s.next_id + 1 }
            sortByStart sortByStart_perm uid rid a b hsome_alloc hBinv
        · by_cases hpf : (conflictsWith a b l).filter
              (fun bb => decide (priorityOf s.users uid < priorityOf s.users bb.user_id)) = []
          · rw [attempt_allocate_waitlist now _ _ l hheap1 hl1 hcc hpf] at hp2
            subst hp2
            dsimp only
            exact inv_wq_append _ hBinv _ hsome_alloc
          · rw [attempt_allocate_preempt now _ _ l hheap1 hl1 hpf] at hp2
            subst hp2
            dsimp only
            have hconds : ∀ bk ∈ (conflictsWith a b l).filter
                (fun bb => decide (priorityOf s.users uid < priorityOf s.users bb.user_id)),
                bk ∈ allocListD { s with request_heap := [], next_id := s.next_id + 1 } rid ∧
                bk.resource_id = rid := by
              intro bk hbk
              have hin_c : bk ∈ conflictsWith a b l := List.mem_of_mem_filter hbk
              have hin_l : bk ∈ l := List.mem_of_mem_filter hin_c
              refine ⟨?_, hinv.a_res _ (alookup_mem hl) bk hin_l⟩
              show bk ∈ (alookup s.allocations rid).getD []
              rw [hl]
              exact hin_l
            have hnodup : (((conflictsWith a b l).filter
                (fun bb => decide (priorityOf s.users uid < priorityOf s.users bb.user_id))).map
                  Booking.booking_id).Nodup :=
              (hinv.a_ids_nodup _ (alookup_mem hl)).sublist
                (((List.filter_sublist _).trans (List.filter_sublist _)).map _)
            obtain ⟨hinvf, hkeysf⟩ := inv_preempt_fold rid now _ _ hBinv hconds hnodup
            have hsome1f : (alookup (((conflictsWith a b l).filter
                (fun bb => decide (priorityOf s.users uid < priorityOf s.users bb.user_id))).foldl
                  (preemptOne rid now)
                  { s with request_heap := [], next_id := s.next_id + 1 }).allocations
                rid).isSome = true := by
              rw [alookup_isSome_iff_mem, hkeysf, ← alookup_isSome_iff_mem]
              exact hsome_alloc
            exact inv_insert_booking _ sortByStart sortByStart_perm uid rid a b
              hsome1f hinvf

theorem inv_cancel_booking (s : State) (bid : Nat) (hinv : Inv s)
    (s2 : State) (hs2 : cancel_booking s bid = .ok s2) : Inv s2 := by
  unfold cancel_booking at hs2
  cases hbk : alookup s.bookings bid with
  | none => rw [hbk] at hs2; cases hs2
  | some bk =>
    rw [hbk] at hs2
    dsimp only at hs2
    have hs3 := Except.ok.inj hs2
    subst hs3
    exact inv_promote_waiting _ (inv_remove s bid bk hbk hinv)

theorem inv_applyOp (s : State) (op : Op) (hinv : Inv s) : Inv (applyOp s op) := by
  cases op with
  | addUser n r => exact inv_add_user s n r hinv
  | addResource n c => exact inv_add_resource s n c hinv
  | reqBooking now uidq ridq aq bq =>
      show Inv (match request_booking s now uidq ridq aq bq with
        | .ok p => p.1 | .error _ => s)
      cases hres : request_booking s now uidq ridq aq bq with
      | ok p => exact inv_request_booking s now uidq ridq aq bq hinv p hres
      | error e => exact hinv
  | cancel bid =>
      show Inv (match cancel_booking s bid with | .ok s1 => s1 | .error _ => s)
      cases hres : cancel_booking s bid with
      | ok s1 => exact inv_cancel_booking s bid hinv s1 hres
      | error e => exact hinv

theorem inv_reachable (s : State) (h : Reachable s) : Inv s := by
  induction h with
  | base => exact inv_init
  | step op _ ih => exact inv_applyOp _ op ih

theorem preempt_fold_bookings (rid now : Nat) (preempted : List Booking) :
    ∀ (s : State) (j : Nat),
      alookup (preempted.foldl (preemptOne rid now) s).bookings j =
        if j ∈ preempted.map Booking.booking_id then none else alookup s.bookings j := by
  induction preempted with
  | nil =>
      intro s j
      simp
  | cons bk rest ih =>
      intro s j
      show alookup (rest.foldl (preemptOne rid now) (preemptOne rid now s bk)).bookings j = _
      rw [ih]
      by_cases hj : j ∈ rest.map Booking.booking_id
      · rw [if_pos hj, if_pos (by simp [hj])]
      · rw [if_neg hj]
        show alookup (s.bookings.filter (fun p => p.1 ≠ bk.booking_id)) j = _
        rw [alookup_filter_ne]
        by_cases hjb : j = bk.booking_id
        · rw [if_pos hjb, if_pos (by simp [hjb])]
        · rw [if_neg hjb, if_neg (by simp [hjb, hj])]

theorem preempt_fold_next_ge (rid now : Nat) (preempted : List Booking) :
    ∀ s : State, s.next_id ≤ (preempted.foldl (preemptOne rid now) s).next_id := by
  induction preempted with
  | nil => exact fun s => Nat.le_refl _
  | cons bk rest ih =>
      intro s
      exact Nat.le_trans (Nat.le_succ _) (ih (preemptOne rid now s bk))

end Sch

namespace SC

/-- `src/smart_campus.py` `User`. -/
structure User where
  user_id : String
  name : String
  role : String
  priority_score : Nat
  email : String
  created_at : Nat
deriving DecidableEq, Repr

/-- `src/smart_campus.py` `Resource`. -/
structure Resource where
  resource_id : String
  name : String
  capacity : Nat
  location : String
  description : String
  created_at : Nat
deriving DecidableEq, Repr

/-- `src/smart_campus.py` `BookingRequest`. -/
structure Request where
  request_id : Nat
  user_id : String
  resource_id : String
  start_time : Nat
  end_time : Nat
  request_timestamp : Nat
  status : String
  priority_score : Nat
deriving DecidableEq, Repr

/-- `src/smart_campus.py` `Booking`. -/
structure Booking where
  booking_id : Nat
  request_id : Nat
  user_id : String
  resource_id : String
  start_time : Nat
  end_time : Nat
  confirmed_at : Nat
deriving DecidableEq, Repr

/-- Priority-queue items `(priority_score, request_timestamp, counter,
request_id)`, compared lexicographically as Python compares tuples; the
running `counter` makes the order total. -/
abbrev QItem := Nat × Nat × Nat × Nat

abbrev QKey := Lex (Nat × Lex (Nat × Lex (Nat × Nat)))

def qkey (x : QItem) : QKey := toLex (x.1, toLex (x.2.1, toLex (x.2.2.1, x.2.2.2)))

def qLE (x y : QItem) : Prop := qkey x ≤ qkey y

instance : DecidableRel qLE :=
  fun x y => inferInstanceAs (Decidable (qkey x ≤ qkey y))

instance : IsTotal QItem qLE := ⟨fun x y => le_total (qkey x) (qkey y)⟩

instance : IsTrans QItem qLE := ⟨fun _ _ _ h h' => le_trans h h'⟩

/-- The `SmartCampusSystem` object's state.  The sample-data seeding of
`__init__` is an external collaborator per the spec and is not replayed here;
`next_id` models `uuid.uuid4()` freshness for request/booking ids. -/
structure State where
  users : List (String × User)
  resources : List (String × Resource)
  bookings : List (Nat × Booking)
  booking_requests : List (Nat × Request)
  priority_queue : List QItem
  waiting_queues : List (String × List Nat)
  counter : Nat
  next_id : Nat
deriving DecidableEq, Repr

def init : State := ⟨[], [], [], [], [], [], 0, 0⟩

/-- `SmartCampusSystem._get_priority_score`. -/
def get_priority_score (role : String) : Nat :=
  if role = "Faculty" then 1
  else if role = "Student" then 2
  else 3

/-- `SmartCampusSystem.add_user` (returns `False` and leaves the store alone
for duplicate ids and for roles other than `"Student"`/`"Faculty"`). -/
def add_user (s : State) (now : Nat) (uid name role email : String) :
    State × Bool :=
  if (alookup s.users uid).isSome then (s, false)
  else if ¬ (role = "Student" ∨ role = "Faculty") then (s, false)
  else
    let u : User := ⟨uid, name, role, get_priority_score role, email, now⟩
    ({ s with users := s.users ++ [(uid, u)] }, true)

/-- `SmartCampusSystem.add_resource`. -/
def add_resource (s : State) (now : Nat) (rid name : String) (capacity : Nat)
    (location description : String) : State × Bool :=
  if (alookup s.resources rid).isSome then (s, false)
  else
    let r : Resource := ⟨rid, name, capacity, location, description, now⟩
    ({ s with resources := s.resources ++ [(rid, r)],
              waiting_queues := s.waiting_queues ++ [(rid, [])] }, true)

/-- The validation failures of `SmartCampusSystem._validate_booking_request`,
distinguished in the source by their printed error messages (user not found /
resource not found / start before end / cannot book in the past). -/
inductive VErr
  | unknownUser
  | unknownResource
  | invalidRange
  | pastStart
deriving DecidableEq, Repr

/-- `SmartCampusSystem._validate_booking_request` (returns `False` on the
first failed check, in source order). -/
def validate_booking_request (s : State) (now : Nat) (uid rid : String)
    (a b : Nat) : Option VErr :=
  if (alookup s.users uid).isNone then some .unknownUser
  else if (alookup s.resources rid).isNone then some .unknownResource
  else if b ≤ a then some .invalidRange
  else if a < now then some .pastStart
  else none

/-- `SmartCampusSystem._check_resource_availability`: scan all bookings; the
inline overlap test is `not (end_time <= booking.start_time or start_time >=
booking.end_time)` guarded by the resource match. -/
def check_resource_availability (s : State) (rid : String) (a b : Nat) : Bool :=
  s.bookings.all (fun p =>
    !(decide (p.2.resource_id = rid) &&
      !(decide (b ≤ p.2.start_time) || decide (a ≥ p.2.end_time))))

/-- Outcomes of `SmartCampusSystem.request_booking`: the returned string is a
booking id on immediate allocation and a request id on waitlisting. -/
inductive Outcome
  | booked (booking_id : Nat)
  | waitlisted (request_id : Nat)
deriving DecidableEq, Repr

def defaultUser : User := ⟨"", "", "", 0, "", 0⟩

/-- `SmartCampusSystem.request_booking`. -/
def request_booking (s : State) (now : Nat) (uid rid : String) (a b : Nat) :
    State × Option Outcome :=
  if (validate_booking_request s now uid rid a b).isSome then (s, none)
  else
    let request_id := s.next_id
    let u := (alookup s.users uid).getD defaultUser
    let req : Request := ⟨request_id, uid, rid, a, b, now, "pending", u.priority_score⟩
    let s1 : State :=
      { s with booking_requests := s.booking_requests ++ [(request_id, req)],
               next_id := request_id + 1 }
    if check_resource_availability s1 rid a b then
      let bid := s1.next_id
      let bk : Booking := ⟨bid, request_id, uid, rid, a, b, now⟩
      let s2 : State :=
        { s1 with bookings := s1.bookings ++ [(bid, bk)],
                  booking_requests := updA s1.booking_requests request_id
                    (fun r => { r with status := "confirmed" }),
                  next_id := bid + 1 }
      (s2, some (.booked bid))
    else
      let s2 : State :=
        { s1 with
            priority_queue :=
              s1.priority_queue ++ [(u.priority_score, now, s1.counter, request_id)],
            waiting_queues := updA s1.waiting_queues rid (fun q => q ++ [request_id]),
            booking_requests := updA s1.booking_requests request_id
              (fun r => { r with status := "waitlisted" }),
            counter := s1.counter + 1 }
      (s2, some (.waitlisted request_id))

/-- The `while self.priority_queue:` loop of
`SmartCampusSystem._process_waiting_queue`, given the heap contents in pop
(sorted) order.  Items whose request id is gone are dropped; a waitlisted
same-resource request that now fits is allocated (booking created, status
`"confirmed"`, id removed from the resource's waiting queue); every other
item is kept on `temp_queue`. -/
def process_go (now : Nat) (rid : String) :
    State → List QItem → List QItem → State × List QItem
  | s, temp, [] => (s, temp)
  | s, temp, item :: rest =>
    let request_id := item.2.2.2
    match alookup s.booking_requests request_id with
    | none => process_go now rid s temp rest
    | some req =>
      if req.resource_id = rid ∧ req.status = "waitlisted" ∧
          check_resource_availability s rid req.start_time req.end_time then
        let bid := s.next_id
        let bk : Booking := ⟨bid, request_id, req.user_id, rid, req.start_time,
                             req.end_time, now⟩
        let s2 : State :=
          { s with bookings := s.bookings ++ [(bid, bk)],
                   booking_requests := updA s.booking_requests request_id
                     (fun r => { r with status := "confirmed" }),
                   waiting_queues := updA s.waiting_queues rid
                     (fun q => q.erase request_id),
                   next_id := bid + 1 }
        process_go now rid s2 temp rest
      else
        process_go now rid s (temp ++ [item]) rest

/-- `SmartCampusSystem._process_waiting_queue`: pop every heap item in order,
then push the unprocessed ones back (pushing in ascending order rebuilds the
same sorted heap, so the restored queue is `temp` itself). -/
def process_waiting_queue (s : State) (now : Nat) (rid : String) : State :=
  if (alookup s.waiting_queues rid).isNone then s
  else
    let res := process_go now rid s [] (List.insertionSort qLE s.priority_queue)
    { res.1 with priority_queue := res.2 }

/-- Results of `SmartCampusSystem.cancel_booking`; the two failures are
distinguished in the source by their printed messages (booking not found /
"You can only cancel your own bookings"). -/
inductive CancelResult
  | notFound
  | unauthorized
  | ok
deriving DecidableEq, Repr

/-- `SmartCampusSystem.cancel_booking`. -/
def cancel_booking (s : State) (now : Nat) (bid : Nat) (uid : String) :
    State × CancelResult :=
  match alookup s.bookings bid with
  | none => (s, .notFound)
  | some bk =>
    if bk.user_id ≠ uid then (s, .unauthorized)
    else
      let s1 : State := { s with bookings := s.bookings.filter (fun p => p.1 ≠ bid) }
      let markCancelled := fun r : Request => { r with status := "cancelled" }
      let s2 : State :=
        if (alookup s1.booking_requests bk.request_id).isSome then
          { s1 with booking_requests := updA s1.booking_requests bk.request_id markCancelled }
        else s1
      (process_waiting_queue s2 now bk.resource_id, .ok)

/-!  Facts about one promotion pass (`_process_waiting_queue`) of the
linear-scan engine, used for the idempotence claim: a pass only appends
bookings, keeps unprocessed heap items in pop order, and every item it keeps
is "stuck" — its request exists and fails the promotion condition — which a
later pass cannot unstick. -/

/-- The kept-item property: the item's request is still tracked and fails the
promotion test (wrong resource, not waitlisted, or no availability). -/
def stuckItem (s : State) (rid : String) (item : QItem) : Prop :=
  ∃ req, alookup s.booking_requests item.2.2.2 = some req ∧
    ¬(req.resource_id = rid ∧ req.status = "waitlisted" ∧
      check_resource_availability s rid req.start_time req.end_time = true)

theorem check_avail_false_append (s s2 : State) (rid : String) (a b : Nat)
    (t : List (Nat × Booking)) (hb : s2.bookings = s.bookings ++ t)
    (h : check_resource_availability s rid a b = false) :
    check_resource_availability s2 rid a b = false := by
  unfold check_resource_availability at h ⊢
  rw [hb, List.all_append, h]
  rfl

/-- The admission step of the promotion loop as a function of the state. -/
def processStep (now : Nat) (rid : String) (s : State) (request_id : Nat)
    (req : Request) : State :=
  let bid := s.next_id
  let bk : Booking := ⟨bid, request_id, req.user_id, rid, req.start_time,
                       req.end_time, now⟩
  { s with bookings := s.bookings ++ [(bid, bk)],
           booking_requests := updA s.booking_requests request_id
             (fun r => { r with status := "confirmed" }),
           waiting_queues := updA s.waiting_queues rid
             (fun q => q.erase request_id),
           next_id := bid + 1 }

theorem process_go_eq_step (now : Nat) (rid : String) (s : State)
    (temp : List QItem) (item : QItem) (rest : List QItem) (req : Request)
    (hreq : alookup s.booking_requests item.2.2.2 = some req)
    (hcond : req.resource_id = rid ∧ req.status = "waitlisted" ∧
      check_resource_availability s rid req.start_time req.end_time = true) :
    process_go now rid s temp (item :: rest) =
      process_go now rid (processStep now rid s item.2.2.2 req) temp rest := by
  simp only [process_go, hreq, if_pos hcond, processStep]

theorem process_go_eq_keep (now : Nat) (rid : String) (s : State)
    (temp : List QItem) (item : QItem) (rest : List QItem) (req : Request)
    (hreq : alookup s.booking_requests item.2.2.2 = some req)
    (hcond : ¬(req.resource_id = rid ∧ req.status = "waitlisted" ∧
      check_resource_availability s rid req.start_time req.end_time = true)) :
    process_go now rid s temp (item :: rest) =
      process_go now rid s (temp ++ [item]) rest := by
  simp only [process_go, hreq, if_neg hcond]

theorem process_go_eq_drop (now : Nat) (rid : String) (s : State)
    (temp : List QItem) (item : QItem) (rest : List QItem)
    (hreq : alookup s.booking_requests item.2.2.2 = none) :
    process_go now rid s temp (item :: rest) = process_go now rid s temp rest := by
  simp only [process_go, hreq]

theorem stuck_processStep (now : Nat) (rid : String) (s : State) (j : Nat)
    (req0 : Request) (item : QItem) (h : stuckItem s rid item) :
    stuckItem (processStep now rid s j req0) rid item := by
  obtain ⟨req, hreq, hcond⟩ := h
  by_cases hij : item.2.2.2 = j
  · refine ⟨{ req with status := "confirmed" }, ?_, ?_⟩
    · dsimp only [processStep]
      rw [alookup_updA, if_pos hij, hreq]
      rfl
    · intro hcc
      have hbad : ({ req with status := "confirmed" } : Request).status =
          "waitlisted" := hcc.2.1
      simp at hbad
  · refine ⟨req, ?_, ?_⟩
    · dsimp only [processStep]
      rw [alookup_updA, if_neg hij]
      exact hreq
    · intro hcc
      refine hcond ⟨hcc.1, hcc.2.1, ?_⟩
      by_cases hav : check_resource_availability s rid req.start_time req.end_time = true
      · exact hav
      · have hfalse : check_resource_availability s rid req.start_time req.end_time = false :=
          Bool.eq_false_iff.mpr hav
        have h2 := check_avail_false_append s (processStep now rid s j req0) rid
          req.start_time req.end_time
          [(s.next_id, ⟨s.next_id, j, req0.user_id, rid, req0.start_time,
            req0.end_time, now⟩)] rfl hfalse
        rw [hcc.2.2] at h2
        cases h2

theorem process_go_stuck (now : Nat) (rid : String) :
    ∀ (items : List QItem) (s : State) (temp : List QItem),
    (∀ item ∈ temp, stuckItem s rid item) →
    ∀ item ∈ (process_go now rid s temp items).2,
      stuckItem (process_go now rid s temp items).1 rid item := by
  intro items
  induction items with
  | nil =>
      intro s temp htemp item hitem
      exact htemp item hitem
  | cons it rest ih =>
      intro s temp htemp
      cases hreq : alookup s.booking_requests it.2.2.2 with
      | none =>
          rw [process_go_eq_drop now rid s temp it rest hreq]
          exact ih s temp htemp
      | some req =>
          by_cases hcond : req.resource_id = rid ∧ req.status = "waitlisted" ∧
              check_resource_availability s rid req.start_time req.end_time = true
          · rw [process_go_eq_step now rid s temp it rest req hreq hcond]
            exact ih _ temp
              (fun item hitem => stuck_processStep now rid s it.2.2.2 req item
                (htemp item hitem))
          · rw [process_go_eq_keep now rid s temp it rest req hreq hcond]
            apply ih s (temp ++ [it])
            intro item hitem
            rcases List.mem_append.mp hitem with h | h
            · exact htemp item h
            · simp only [List.mem_singleton] at h
              subst h
              exact ⟨req, hreq, hcond⟩

theorem process_go_temp (now : Nat) (rid : String) :
    ∀ (items : List QItem) (s : State) (temp : List QItem),
    ∃ w, (process_go now rid s temp items).2 = temp ++ w ∧ List.Sublist w items := by
  intro items
  induction items with
  | nil => exact fun s temp => ⟨[], by simp [process_go]⟩
  | cons it rest ih =>
      intro s temp
      cases hreq : alookup s.booking_requests it.2.2.2 with
      | none =>
          rw [process_go_eq_drop now rid s temp it rest hreq]
          obtain ⟨w, hw, hs⟩ := ih s temp
          exact ⟨w, hw, hs.cons it⟩
      | some req =>
          by_cases hcond : req.resource_id = rid ∧ req.status = "waitlisted" ∧
              check_resource_availability s rid req.start_time req.end_time = true
          · rw [process_go_eq_step now rid s temp it rest req hreq hcond]
            obtain ⟨w, hw, hs⟩ := ih _ temp
            exact ⟨w, hw, hs.cons it⟩
          · rw [process_go_eq_keep now rid s temp it rest req hreq hcond]
            obtain ⟨w, hw, hs⟩ := ih s (temp ++ [it])
            exact ⟨it :: w, by rw [hw]; simp, hs.cons₂ it⟩

theorem process_go_wqueues (now : Nat) (rid : String) :
    ∀ (items : List QItem) (s : State) (temp : List QItem),
    (process_go now rid s temp items).1.waiting_queues.map Prod.fst =
      s.waiting_queues.map Prod.fst := by
  intro items
  induction items with
  | nil => exact fun s temp => rfl
  | cons it rest ih =>
      intro s temp
      cases hreq : alookup s.booking_requests it.2.2.2 with
      | none =>
          rw [process_go_eq_drop now rid s temp it rest hreq]
          exact ih s temp
      | some req =>
          by_cases hcond : req.resource_id = rid ∧ req.status = "waitlisted" ∧
              check_resource_availability s rid req.start_time req.end_time = true
          · rw [process_go_eq_step now rid s temp it rest req hreq hcond]
            rw [ih _ temp]
            dsimp only [processStep]
            rw [updA_map_fst]
          · rw [process_go_eq_keep now rid s temp it rest req hreq hcond]
            exact ih s (temp ++ [it])

theorem process_go_all_stuck (now : Nat) (rid : String) :
    ∀ (items : List QItem) (s : State) (temp : List QItem),
    (∀ item ∈ items, stuckItem s rid item) →
    process_go now rid s temp items = (s, temp ++ items) := by
  intro items
  induction items with
  | nil => intro s temp _; simp [process_go]
  | cons it rest ih =>
      intro s temp hstuck
      obtain ⟨req, hreq, hcond⟩ := hstuck it (by simp)
      rw [process_go_eq_keep now rid s temp it rest req hreq hcond]
      rw [ih s (temp ++ [it]) (fun item hitem => hstuck item (List.mem_cons_of_mem _ hitem))]
      simp

theorem stuckItem_eq_of (s t : State) (rid : String) (item : QItem)
    (hbr : t.booking_requests = s.booking_requests) (hb : t.bookings = s.bookings)
    (h : stuckItem s rid item) : stuckItem t rid item := by
  obtain ⟨req, hreq, hcond⟩ := h
  refine ⟨req, ?_, ?_⟩
  · rw [hbr]
    exact hreq
  · intro hcc
    refine hcond ⟨hcc.1, hcc.2.1, ?_⟩
    have hav := hcc.2.2
    unfold check_resource_availability at hav ⊢
    rw [← hb]
    exact hav

/-- The promotion pass of the linear-scan engine is idempotent on every
store state. -/
theorem process_wq_idem (s : State) (now1 now2 : Nat) (rid : String) :
    process_waiting_queue (process_waiting_queue s now1 rid) now2 rid =
      process_waiting_queue s now1 rid := by
  by_cases hg : (alookup s.waiting_queues rid).isNone
  · have hx : ∀ n, process_waiting_queue s n rid = s := by
      intro n
      unfold process_waiting_queue
      rw [if_pos hg]
    rw [hx, hx]
  · have hx : process_waiting_queue s now1 rid =
        { (process_go now1 rid s [] (List.insertionSort qLE s.priority_queue)).1 with
            priority_queue :=
              (process_go now1 rid s [] (List.insertionSort qLE s.priority_queue)).2 } := by
      unfold process_waiting_queue
      rw [if_neg hg]
    rw [hx]
    obtain ⟨w, hw, hsub⟩ := process_go_temp now1 rid
      (List.insertionSort qLE s.priority_queue) s []
    have hsorted : List.Sorted qLE
        (process_go now1 rid s [] (List.insertionSort qLE s.priority_queue)).2 := by
      rw [hw]
      simp only [List.nil_append]
      exact List.Pairwise.sublist hsub (List.sorted_insertionSort qLE s.priority_queue)
    have hstuck := process_go_stuck now1 rid
      (List.insertionSort qLE s.priority_queue) s [] (by simp)
    have hkeys := process_go_wqueues now1 rid (List.insertionSort qLE s.priority_queue) s []
    have hsome : (alookup (process_go now1 rid s []
        (List.insertionSort qLE s.priority_queue)).1.waiting_queues rid).isSome =
        (alookup s.waiting_queues rid).isSome := by
      rw [Bool.eq_iff_iff, alookup_isSome_iff_mem, alookup_isSome_iff_mem, hkeys]
    have hguard2 : ¬ (alookup ({ (process_go now1 rid s []
        (List.insertionSort qLE s.priority_queue)).1 with
          priority_queue :=
            (process_go now1 rid s [] (List.insertionSort qLE s.priority_queue)).2 }
          : State).waiting_queues rid).isNone = true := by
      intro hnone
      cases h1 : alookup s.waiting_queues rid with
      | none => exact hg (by rw [h1]; rfl)
      | some v =>
          have h2 : (alookup (process_go now1 rid s []
              (List.insertionSort qLE s.priority_queue)).1.waiting_queues rid).isSome
              = true := by
            rw [hsome, h1]
            rfl
          have hnone2 : (alookup (process_go now1 rid s []
              (List.insertionSort qLE s.priority_queue)).1.waiting_queues rid).isNone
              = true := hnone
          cases h3 : alookup (process_go now1 rid s []
              (List.insertionSort qLE s.priority_queue)).1.waiting_queues rid with
          | none => rw [h3] at h2; cases h2
          | some w2 => rw [h3] at hnone2; cases hnone2
    have hstuckX : ∀ item ∈ (process_go now1 rid s []
        (List.insertionSort qLE s.priority_queue)).2,
        stuckItem ({ (process_go now1 rid s []
          (List.insertionSort qLE s.priority_queue)).1 with
            priority_queue :=
              (process_go now1 rid s [] (List.insertionSort qLE s.priority_queue)).2 }
            : State) rid item :=
      fun item h => stuckItem_eq_of _ _ rid item rfl rfl (hstuck item h)
    unfold process_waiting_queue
    rw [if_neg hguard2]
    dsimp only
    rw [List.Sorted.insertionSort_eq hsorted]
    rw [process_go_all_stuck now2 rid
      (process_go now1 rid s [] (List.insertionSort qLE s.priority_queue)).2
      ({ (process_go now1 rid s [] (List.insertionSort qLE s.priority_queue)).1 with
          priority_queue :=
            (process_go now1 rid s [] (List.insertionSort qLE s.priority_queue)).2 }
        : State) [] hstuckX]
    dsimp only [List.nil_append]

/-- The store update of `cancel_booking`'s success path, written out as a
standalone function: drop the booking from the global index and mark its
originating request (when still tracked) as cancelled. -/
def removeAndMark (t : State) (bid : Nat) (bk : Booking) : State :=
  let s1 : State := { t with bookings := t.bookings.filter (fun p => p.1 ≠ bid) }
  if (alookup s1.booking_requests bk.request_id).isSome then
    { s1 with
        booking_requests := updA s1.booking_requests bk.request_id
                              (fun r => { r with status := "cancelled" }) }
  else s1

end SC

/-!  Concrete executions of the heap engine used by the claim theorems. -/

/-- A student (id 0) and two faculty members (ids 1, 2) on one resource
(id 3); the student holds `[0,10)` (booking 5) and faculty 1 holds `[10,20)`
(booking 7). -/
def trace1pre : List Sch.Op :=
  [.addUser "S" "Student", .addUser "F1" "Faculty", .addUser "F2" "Faculty",
   .addResource "Lab" none,
   .reqBooking 0 0 3 0 10, .reqBooking 1 1 3 10 20]

/-- `trace1pre` followed by faculty 2 requesting `[5,15)`, which conflicts
with both existing bookings (one student-owned, one faculty-owned). -/
def trace1 : List Sch.Op := trace1pre ++ [.reqBooking 2 2 3 5 15]

/-- Student 0 holds `[0,10)` (booking 5), student 1 is waitlisted for `[0,5)`
(request 6), then faculty 2 requests `[5,15)`, preempting booking 5. -/
def trace2 : List Sch.Op :=
  [.addUser "S1" "Student", .addUser "S2" "Student", .addUser "F" "Faculty",
   .addResource "Lab" none,
   .reqBooking 0 0 3 0 10, .reqBooking 1 1 3 0 5, .reqBooking 2 2 3 5 15]

/-- One student (id 0) and one resource (id 1). -/
def trace3a : List Sch.Op := [.addUser "S" "Student", .addResource "Lab" none]

/-- `trace3a` followed by booking `[11,13)` (request 2, booking 3). -/
def trace3b : List Sch.Op := trace3a ++ [.reqBooking 0 0 1 11 13]

/-- C1 counterexample: in the state reached by `trace1pre`, faculty user 2
requests `[5,15)`; the conflict set is `{booking 5 (student-owned), booking 7
(owned by faculty user 1)}` and the requester does NOT strictly outrank the
owner of booking 7 (both priority 0), so by the claim no booking may be
removed and the request must be waitlisted — yet the engine removes booking 5
and returns Confirmed. -/
theorem C1_counterexample :
    alookup (Sch.runOps trace1pre).bookings 5 = some ⟨5, 0, 3, 0, 10⟩ ∧
    Sch.conflictsWith 5 15 ((alookup (Sch.runOps trace1pre).allocations 3).getD []) =
      [⟨5, 0, 3, 0, 10⟩, ⟨7, 1, 3, 10, 20⟩] ∧
    Sch.priorityOf (Sch.runOps trace1pre).users 2 = 0 ∧
    Sch.priorityOf (Sch.runOps trace1pre).users 1 = 0 ∧
    Sch.request_booking (Sch.runOps trace1pre) 2 2 3 5 15 =
      .ok (Sch.applyOp (Sch.runOps trace1pre) (.reqBooking 2 2 3 5 15),
           some (.confirmed 10 ["S"])) ∧
    alookup (Sch.applyOp (Sch.runOps trace1pre) (.reqBooking 2 2 3 5 15)).bookings 5 =
      none := by decide

/-- C2 is violated by the code: the state reached by `trace1` — a sequence of
`add_user`, `add_resource` and `request_booking` operations from the empty
store — holds two overlapping bookings (`[5,15)` and `[10,20)`) on resource 3,
because mixed-priority preemption removes only the outranked conflicting
booking and admits the new one beside the remaining conflict. -/
theorem C2_code_bug_eval :
    Sch.Reachable (Sch.runOps trace1) ∧
    Sch.conflict_free (Sch.runOps trace1) = false :=
  ⟨Sch.reachable_runOps trace1, by decide⟩

/-- C6 counterexample: the preemption performed by the last operation of
`trace2` removes booking 5 (a booking removal), after which waitlisted
request 6 (`[0,5)`) no longer conflicts with resource 3's bookings — but no
promotion pass runs on preemption, so the request stays on the waiting
queue. -/
theorem C6_counterexample :
    alookup (Sch.runOps (trace2.take 6)).bookings 5 = some ⟨5, 0, 3, 0, 10⟩ ∧
    alookup (Sch.runOps trace2).bookings 5 = none ∧
    (Sch.runOps trace2).waiting_queue.head? = some ⟨6, 1, 3, 0, 5, 1, 1⟩ ∧
    Sch.hasConflict (Sch.runOps trace2) ⟨6, 1, 3, 0, 5, 1, 1⟩ = false := by decide

/-- C8 counterexample: `Scheduler.add_user` gives the unknown role "Staff"
priority class 1, the same class as "Student", so a Staff request with an
earlier arrival timestamp sorts strictly BEFORE a Student request instead of
strictly after it. -/
theorem C8_counterexample :
    (Sch.add_user Sch.init "Eve" "Staff").1.users = [(0, ⟨0, "Eve", "Staff", 1⟩)] ∧
    Sch.priority_for_role "Staff" = Sch.priority_for_role "Student" ∧
    Sch.reqLE ⟨1, 0, 9, 0, 1, 0, Sch.priority_for_role "Staff"⟩
              ⟨2, 3, 9, 0, 1, 5, Sch.priority_for_role "Student"⟩ ∧
    ¬ Sch.reqLE ⟨2, 3, 9, 0, 1, 5, Sch.priority_for_role "Student"⟩
                ⟨1, 0, 9, 0, 1, 0, Sch.priority_for_role "Staff"⟩ := by decide

/-- C3: the shared predicate `is_overlap` realises exactly the half-open rule
NOT(e1 ≤ s2 OR e2 ≤ s1); the availability check of the linear-scan engine
applies the same predicate to every booking of the target resource; and two
requests touching at an endpoint (`[11,13)` then `[13,15)`) on the same
otherwise-free resource are both admitted. -/
theorem C3_overlap :
    (∀ s1 e1 s2 e2 : Nat, Sch.is_overlap s1 e1 s2 e2 = true ↔ ¬ (e1 ≤ s2 ∨ e2 ≤ s1)) ∧
    (∀ (t : SC.State) (rid : String) (a b : Nat),
        SC.check_resource_availability t rid a b =
          t.bookings.all (fun p =>
            !(decide (p.2.resource_id = rid) &&
              Sch.is_overlap a b p.2.start_time p.2.end_time))) ∧
    Sch.request_booking (Sch.runOps trace3a) 0 0 1 11 13 =
      .ok (Sch.applyOp (Sch.runOps trace3a) (.reqBooking 0 0 1 11 13),
           some (.confirmed 3 [])) ∧
    Sch.request_booking (Sch.runOps trace3b) 0 0 1 13 15 =
      .ok (Sch.applyOp (Sch.runOps trace3b) (.reqBooking 0 0 1 13 15),
           some (.confirmed 5 [])) := by
  refine ⟨?_, ?_, by decide, by decide⟩
  · intro s1 e1 s2 e2
    simp [Sch.is_overlap, not_or]
  · intro t rid a b
    rfl

/-- C4: a submission with an unknown user, an unknown resource, or
`start ≥ end` fails with the corresponding distinct validation error — in
precedence order, as in the source — and leaves the store untouched, in both
engines. -/
theorem C4_validation :
    (∀ (s : Sch.State) (now uid rid a b : Nat),
      (alookup s.users uid = none →
        Sch.request_booking s now uid rid a b = .error .unknownUser) ∧
      ((alookup s.users uid).isSome → alookup s.resources rid = none →
        Sch.request_booking s now uid rid a b = .error .unknownResource) ∧
      ((alookup s.users uid).isSome → (alookup s.resources rid).isSome → b ≤ a →
        Sch.request_booking s now uid rid a b = .error .invalidRange) ∧
      (∀ e, Sch.request_booking s now uid rid a b = .error e →
        Sch.applyOp s (.reqBooking now uid rid a b) = s)) ∧
    (∀ (t : SC.State) (now : Nat) (uid rid : String) (a b : Nat),
      (alookup t.users uid = none →
        SC.validate_booking_request t now uid rid a b = some .unknownUser ∧
        SC.request_booking t now uid rid a b = (t, none)) ∧
      ((alookup t.users uid).isSome → alookup t.resources rid = none →
        SC.validate_booking_request t now uid rid a b = some .unknownResource ∧
        SC.request_booking t now uid rid a b = (t, none)) ∧
      ((alookup t.users uid).isSome → (alookup t.resources rid).isSome → b ≤ a →
        SC.validate_booking_request t now uid rid a b = some .invalidRange ∧
        SC.request_booking t now uid rid a b = (t, none))) := by
  constructor
  · intro s now uid rid a b
    refine ⟨?_, ?_, ?_, ?_⟩
    · intro h
      simp [Sch.request_booking, h]
    · intro h1 h2
      obtain ⟨u, hu⟩ := Option.isSome_iff_exists.mp h1
      simp [Sch.request_booking, hu, h2]
    · intro h1 h2 h3
      obtain ⟨u, hu⟩ := Option.isSome_iff_exists.mp h1
      obtain ⟨r, hr⟩ := Option.isSome_iff_exists.mp h2
      simp [Sch.request_booking, hu, hr, h3]
    · intro e he
      simp [Sch.applyOp, he]
  · intro t now uid rid a b
    refine ⟨?_, ?_, ?_⟩
    · intro h
      have hv : SC.validate_booking_request t now uid rid a b = some .unknownUser := by
        simp [SC.validate_booking_request, h]
      exact ⟨hv, by simp [SC.request_booking, hv]⟩
    · intro h1 h2
      obtain ⟨u, hu⟩ := Option.isSome_iff_exists.mp h1
      have hv : SC.validate_booking_request t now uid rid a b = some .unknownResource := by
        simp [SC.validate_booking_request, hu, h2]
      exact ⟨hv, by simp [SC.request_booking, hv]⟩
    · intro h1 h2 h3
      obtain ⟨u, hu⟩ := Option.isSome_iff_exists.mp h1
      obtain ⟨r, hr⟩ := Option.isSome_iff_exists.mp h2
      have hv : SC.validate_booking_request t now uid rid a b = some .invalidRange := by
        simp [SC.validate_booking_request, hu, hr, h3]
      exact ⟨hv, by simp [SC.request_booking, hv]⟩

/-- C4 witness: the three failure kinds at concrete stores, each case the
theorem applied with its hypotheses discharged by evaluation. -/
theorem C4_validation_witness :
    Sch.request_booking Sch.init 0 0 0 1 2 = .error .unknownUser ∧
    Sch.request_booking (Sch.runOps [.addUser "A" "Student"]) 0 0 5 1 2 =
      .error .unknownResource ∧
    Sch.request_booking (Sch.runOps trace3a) 0 0 1 5 3 = .error .invalidRange ∧
    Sch.applyOp (Sch.runOps trace3a) (.reqBooking 0 0 1 5 3) = Sch.runOps trace3a ∧
    SC.request_booking SC.init 0 "u" "r" 1 2 = (SC.init, none) :=
  ⟨(C4_validation.1 Sch.init 0 0 0 1 2).1 (by decide),
   (C4_validation.1 (Sch.runOps [.addUser "A" "Student"]) 0 0 5 1 2).2.1
     (by decide) (by decide),
   (C4_validation.1 (Sch.runOps trace3a) 0 0 1 5 3).2.2.1
     (by decide) (by decide) (by decide),
   (C4_validation.1 (Sch.runOps trace3a) 0 0 1 5 3).2.2.2 _
     ((C4_validation.1 (Sch.runOps trace3a) 0 0 1 5 3).2.2.1
       (by decide) (by decide) (by decide)),
   ((C4_validation.2 SC.init 0 "u" "r" 1 2).1 (by decide)).2⟩

/-- C5: for `cancelBooking(bookingId, callingUserId)` — implemented by
`SmartCampusSystem.cancel_booking`; the heap engine's `cancel_booking` takes
no calling user — an unknown booking id fails with NotFound and a non-owning
caller with Unauthorized, each leaving the store untouched, while the owner's
call removes the booking, marks its request cancelled and runs the promotion
pass.  The heap engine likewise fails without mutation on unknown ids. -/
theorem C5_cancel :
    (∀ (t : SC.State) (now bid : Nat) (uid : String),
      (alookup t.bookings bid = none →
        SC.cancel_booking t now bid uid = (t, .notFound)) ∧
      (∀ bk, alookup t.bookings bid = some bk → bk.user_id ≠ uid →
        SC.cancel_booking t now bid uid = (t, .unauthorized)) ∧
      (∀ bk, alookup t.bookings bid = some bk → bk.user_id = uid →
        SC.cancel_booking t now bid uid =
          (SC.process_waiting_queue (SC.removeAndMark t bid bk) now bk.resource_id,
           .ok))) ∧
    (∀ (s : Sch.State) (bid : Nat),
      alookup s.bookings bid = none →
        Sch.cancel_booking s bid = .error () ∧ Sch.applyOp s (.cancel bid) = s) := by
  constructor
  · intro t now bid uid
    refine ⟨?_, ?_, ?_⟩
    · intro h
      simp [SC.cancel_booking, h]
    · intro bk hbk hne
      simp [SC.cancel_booking, hbk, hne]
    · intro bk hbk heq
      simp [SC.cancel_booking, SC.removeAndMark, hbk, heq]
  · intro s bid h
    have h1 : Sch.cancel_booking s bid = .error () := by
      simp [Sch.cancel_booking, h]
    exact ⟨h1, by simp [Sch.applyOp, h1]⟩

/-- C5 witness: a store with one booking (id 1, owned by `"u1"`); an unknown
id yields NotFound, a call by `"u2"` yields Unauthorized with the store
untouched, and the heap engine rejects an unknown id unchanged. -/
theorem C5_cancel_witness :
    SC.cancel_booking
        (SC.request_booking
          ((SC.add_resource ((SC.add_user SC.init 0 "u1" "A" "Student" "a@x").1)
             0 "r1" "Lab" 10 "B1" "lab").1) 5 "u1" "r1" 10 20).1
        7 9 "u1" =
      ((SC.request_booking
          ((SC.add_resource ((SC.add_user SC.init 0 "u1" "A" "Student" "a@x").1)
             0 "r1" "Lab" 10 "B1" "lab").1) 5 "u1" "r1" 10 20).1, .notFound) ∧
    SC.cancel_booking
        (SC.request_booking
          ((SC.add_resource ((SC.add_user SC.init 0 "u1" "A" "Student" "a@x").1)
             0 "r1" "Lab" 10 "B1" "lab").1) 5 "u1" "r1" 10 20).1
        7 1 "u2" =
      ((SC.request_booking
          ((SC.add_resource ((SC.add_user SC.init 0 "u1" "A" "Student" "a@x").1)
             0 "r1" "Lab" 10 "B1" "lab").1) 5 "u1" "r1" 10 20).1, .unauthorized) ∧
    Sch.cancel_booking Sch.init 0 = .error () :=
  ⟨(C5_cancel.1 _ 7 9 "u1").1 (by decide),
   (C5_cancel.1 _ 7 1 "u2").2.1 ⟨1, 0, "u1", "r1", 10, 20, 5⟩ (by decide) (by decide),
   (C5_cancel.2 Sch.init 0 (by decide)).1⟩

/-- C10: the heap engine accepts any registered-user/registered-resource
request with `start < end` (Confirmed or Waitlisted), with no check against
the current time, whereas the linear-scan engine rejects any request whose
start precedes the current time, returning `None` with the store unchanged:
the two implementations enforce opposite past-start policies. -/
theorem C10_past_start_policies :
    (∀ (s : Sch.State) (now uid rid a b : Nat),
      (alookup s.users uid).isSome → (alookup s.resources rid).isSome → a < b →
      ∃ s1 o, Sch.request_booking s now uid rid a b = .ok (s1, some o) ∧
        ((∃ n nm, o = Sch.Outcome.confirmed n nm) ∨
         (∃ n, o = Sch.Outcome.waitlisted n))) ∧
    (∀ (t : SC.State) (now : Nat) (uid rid : String) (a b : Nat),
      (alookup t.users uid).isSome → (alookup t.resources rid).isSome →
      a < b → a < now → SC.request_booking t now uid rid a b = (t, none)) := by
  constructor
  · intro s now uid rid a b h1 h2 h3
    obtain ⟨u, hu⟩ := Option.isSome_iff_exists.mp h1
    have hba : ¬ b ≤ a := Nat.not_le_of_lt h3
    have hrb : Sch.request_booking s now uid rid a b =
        .ok (Sch.attempt_allocate now
          { s with request_heap := s.request_heap ++ [⟨s.next_id, uid, rid, a, b, now, u.priority⟩],
                   next_id := s.next_id + 1 }) := by
      simp [Sch.request_booking, hu, Option.isNone_iff_eq_none, hba,
            Option.isSome_iff_ne_none.mp h2]
    obtain ⟨s1, o, ho⟩ := Sch.attempt_allocate_of_ne_nil now
      { s with request_heap := s.request_heap ++ [⟨s.next_id, uid, rid, a, b, now, u.priority⟩],
               next_id := s.next_id + 1 } (by simp)
    refine ⟨s1, o, by rw [hrb, ho], ?_⟩
    cases o with
    | confirmed n nm => exact Or.inl ⟨n, nm, rfl⟩
    | waitlisted n => exact Or.inr ⟨n, rfl⟩
  · intro t now uid rid a b h1 h2 h3 h4
    obtain ⟨u, hu⟩ := Option.isSome_iff_exists.mp h1
    obtain ⟨r, hr⟩ := Option.isSome_iff_exists.mp h2
    have hv : SC.validate_booking_request t now uid rid a b = some .pastStart := by
      simp [SC.validate_booking_request, hu, hr, Nat.not_le_of_lt h3, h4]
    simp [SC.request_booking, hv]

/-- C10 witness: in the two-entry store of `trace3a` the heap engine confirms
the entirely-past range `[1,2)` at current time 100, while the linear-scan
engine rejects a past-start request unchanged. -/
theorem C10_past_start_policies_witness :
    (∃ s1 o, Sch.request_booking (Sch.runOps trace3a) 100 0 1 1 2 = .ok (s1, some o) ∧
      ((∃ n nm, o = Sch.Outcome.confirmed n nm) ∨ (∃ n, o = Sch.Outcome.waitlisted n))) ∧
    SC.request_booking
        ((SC.add_resource ((SC.add_user SC.init 0 "u1" "A" "Student" "a@x").1)
           0 "r1" "Lab" 10 "B1" "lab").1) 100 "u1" "r1" 1 2 =
      (((SC.add_resource ((SC.add_user SC.init 0 "u1" "A" "Student" "a@x").1)
           0 "r1" "Lab" 10 "B1" "lab").1), none) :=
  ⟨C10_past_start_policies.1 (Sch.runOps trace3a) 100 0 1 1 2
      (by decide) (by decide) (by decide),
   C10_past_start_policies.2 _ 100 "u1" "r1" 1 2
      (by decide) (by decide) (by decide) (by decide)⟩

/-- C8 amended: Faculty requests sort strictly before Student requests,
but `Scheduler.add_user` maps every role other than (case-insensitive)
"faculty" — Student or unknown alike — to priority class 1, so unknown-role
requests sort together with Student requests by arrival time instead of
strictly after them; the linear-scan engine's score map does put unknown
roles last (3 after Student's 2 after Faculty's 1), but its registration
rejects any role outside Student/Faculty, leaving no user to which that
class could apply. -/
theorem C8_amended :
    (∀ role : String, Sch.lowerString role = "faculty" →
        Sch.priority_for_role role = 0) ∧
    (∀ role : String, Sch.lowerString role ≠ "faculty" →
        Sch.priority_for_role role = 1) ∧
    (∀ rf ro : Sch.Request, rf.priority = 0 → ro.priority = 1 →
        Sch.reqLE rf ro ∧ ¬ Sch.reqLE ro rf) ∧
    SC.get_priority_score "Faculty" = 1 ∧
    SC.get_priority_score "Student" = 2 ∧
    (∀ role : String, role ≠ "Student" → role ≠ "Faculty" →
        SC.get_priority_score role = 3 ∧
        ∀ (t : SC.State) (now : Nat) (uid name email : String),
          SC.add_user t now uid name role email = (t, false)) := by
  refine ⟨?_, ?_, ?_, rfl, rfl, ?_⟩
  · intro role h
    simp [Sch.priority_for_role, h]
  · intro role h
    simp [Sch.priority_for_role, h]
  · intro rf ro hf ho
    constructor
    · show Sch.rkey rf ≤ Sch.rkey ro
      unfold Sch.rkey
      exact (Prod.Lex.le_iff _ _).mpr (Or.inl (by rw [hf, ho]; exact Nat.zero_lt_one))
    · intro h
      replace h : Sch.rkey ro ≤ Sch.rkey rf := h
      unfold Sch.rkey at h
      rcases (Prod.Lex.le_iff _ _).mp h with h1 | ⟨h1, _⟩
      · rw [hf, ho] at h1
        simp at h1
      · rw [hf, ho] at h1
        simp at h1
  · intro role h1 h2
    refine ⟨by simp [SC.get_priority_score, h1, h2], ?_⟩
    intro t now uid name email
    by_cases hdup : (alookup t.users uid).isSome
    · simp [SC.add_user, hdup]
    · simp [SC.add_user, hdup, h1, h2]

/-- C8 amended witness: "FACULTY" gets class 0; "Staff" gets class 1; a
priority-0 request sorts strictly before a priority-1 request even with a
later arrival; and the linear-scan engine rejects registering a "Staff"
user. -/
theorem C8_amended_witness :
    Sch.priority_for_role "FACULTY" = 0 ∧
    Sch.priority_for_role "Staff" = 1 ∧
    (Sch.reqLE ⟨0, 0, 9, 0, 1, 5, 0⟩ ⟨1, 0, 9, 0, 1, 0, 1⟩ ∧
      ¬ Sch.reqLE ⟨1, 0, 9, 0, 1, 0, 1⟩ ⟨0, 0, 9, 0, 1, 5, 0⟩) ∧
    SC.get_priority_score "Staff" = 3 ∧
    SC.add_user SC.init 0 "u9" "Eve" "Staff" "e@x" = (SC.init, false) :=
  ⟨C8_amended.1 "FACULTY" (by decide),
   C8_amended.2.1 "Staff" (by decide),
   C8_amended.2.2.1 ⟨0, 0, 9, 0, 1, 5, 0⟩ ⟨1, 0, 9, 0, 1, 0, 1⟩ rfl rfl,
   (C8_amended.2.2.2.2.2 "Staff" (by decide) (by decide)).1,
   (C8_amended.2.2.2.2.2 "Staff" (by decide) (by decide)).2 SC.init 0 "u9" "Eve" "e@x"⟩

/-- The heap engine's promotion pass is idempotent on every store state. -/
theorem sch_promote_waiting_idem (s : Sch.State) :
    Sch.promote_waiting (Sch.promote_waiting s) = Sch.promote_waiting s := by
  have key : ∀ x : Sch.State,
      List.Sorted Sch.reqLE x.waiting_queue →
      (∀ r ∈ x.waiting_queue, Sch.hasConflict x r = true) →
      Sch.promote_waiting x = x := by
    intro x hsorted hconf
    show Sch.promote_go { x with waiting_queue := [] }
        (List.insertionSort Sch.reqLE x.waiting_queue) = x
    rw [List.Sorted.insertionSort_eq hsorted]
    rw [Sch.promote_go_all_conflict x.waiting_queue { x with waiting_queue := [] } hconf]
    rfl
  apply key
  · obtain ⟨w, hw, hsub⟩ := Sch.promote_go_wq
      (List.insertionSort Sch.reqLE s.waiting_queue) { s with waiting_queue := [] }
    have h1 : (Sch.promote_waiting s).waiting_queue = w := by
      show (Sch.promote_go { s with waiting_queue := [] }
        (List.insertionSort Sch.reqLE s.waiting_queue)).waiting_queue = w
      rw [hw]
      rfl
    rw [h1]
    exact List.Pairwise.sublist hsub (List.sorted_insertionSort Sch.reqLE s.waiting_queue)
  · show ∀ r ∈ (Sch.promote_go { s with waiting_queue := [] }
        (List.insertionSort Sch.reqLE s.waiting_queue)).waiting_queue,
      Sch.hasConflict (Sch.promote_go { s with waiting_queue := [] }
        (List.insertionSort Sch.reqLE s.waiting_queue)) r = true
    exact Sch.promote_go_wq_conflict _ _ (by simp)

/-- C7: the promotion pass is idempotent on every store state in both
engines: a second run of `Scheduler._promote_waiting` immediately after a
first changes nothing, because a pass only adds bookings, so every entry it
returned to the (already sorted) waiting queue still conflicts when
re-examined; likewise a second run of
`SmartCampusSystem._process_waiting_queue` for the same resource, at any
later time, changes nothing: every heap item the first pass kept has a
request that is off-resource, no longer waitlisted, or still blocked by the
grown booking set. -/
theorem C7_promotion_idempotent :
    (∀ s : Sch.State,
        Sch.promote_waiting (Sch.promote_waiting s) = Sch.promote_waiting s) ∧
    (∀ (t : SC.State) (now1 now2 : Nat) (rid : String),
        SC.process_waiting_queue (SC.process_waiting_queue t now1 rid) now2 rid =
          SC.process_waiting_queue t now1 rid) :=
  ⟨sch_promote_waiting_idem, fun t now1 now2 rid => SC.process_wq_idem t now1 now2 rid⟩

/-- C6 amended: a cancellation (and only a cancellation — preemption triggers
no pass) runs the promotion pass; the pass drains the whole waiting queue in
priority order, leaving the still-conflicting entries verbatim (hence with
original priority class and arrival timestamp) as a sublist of the sorted
queue; every entry still waitlisted afterwards conflicts with the resulting
booking set (so everything admissible was admitted); and every drained entry
is either returned or covered by a created booking with its exact user,
resource and range. -/
theorem C6_amended :
    (∀ s : Sch.State,
        List.Sublist (Sch.promote_waiting s).waiting_queue
          (List.insertionSort Sch.reqLE s.waiting_queue)) ∧
    (∀ (s : Sch.State) (r : Sch.Request),
        r ∈ (Sch.promote_waiting s).waiting_queue →
        Sch.hasConflict (Sch.promote_waiting s) r = true) ∧
    (∀ (s : Sch.State) (r : Sch.Request), r ∈ s.waiting_queue →
        r ∈ (Sch.promote_waiting s).waiting_queue ∨
        ∃ p ∈ (Sch.promote_waiting s).bookings,
          (p : Nat × Sch.Booking).2.user_id = r.user_id ∧
          p.2.resource_id = r.resource_id ∧
          p.2.start_time = r.start_time ∧ p.2.end_time = r.end_time) ∧
    (∀ (s : Sch.State) (bid : Nat) (bk : Sch.Booking),
        alookup s.bookings bid = some bk →
        Sch.cancel_booking s bid =
          .ok (Sch.promote_waiting
            { s with bookings := s.bookings.filter (fun p => p.1 ≠ bid),
                     allocations := updA s.allocations bk.resource_id
                                      (fun l => l.filter (fun b => b.booking_id ≠ bid)) })) := by
  refine ⟨?_, ?_, ?_, ?_⟩
  · intro s
    obtain ⟨w, hw, hsub⟩ := Sch.promote_go_wq
      (List.insertionSort Sch.reqLE s.waiting_queue) { s with waiting_queue := [] }
    have h1 : (Sch.promote_waiting s).waiting_queue = w := by
      show (Sch.promote_go { s with waiting_queue := [] }
        (List.insertionSort Sch.reqLE s.waiting_queue)).waiting_queue = w
      rw [hw]
      rfl
    rw [h1]
    exact hsub
  · intro s
    show ∀ r ∈ (Sch.promote_go { s with waiting_queue := [] }
        (List.insertionSort Sch.reqLE s.waiting_queue)).waiting_queue,
      Sch.hasConflict (Sch.promote_go { s with waiting_queue := [] }
        (List.insertionSort Sch.reqLE s.waiting_queue)) r = true
    exact Sch.promote_go_wq_conflict _ _ (by simp)
  · intro s r hr
    have hr2 : r ∈ List.insertionSort Sch.reqLE s.waiting_queue := by
      rw [List.mem_insertionSort]
      exact hr
    exact Sch.promote_go_mem (List.insertionSort Sch.reqLE s.waiting_queue)
      { s with waiting_queue := [] } r hr2
  · intro s bid bk h
    simp [Sch.cancel_booking, h]

/-- C6 amended witness: after `trace2`, running the pass leaves exactly the
still-conflicting request 8, the admissible request 6 is resolved by the
pass, and cancelling booking 5 of the `trace1pre` store invokes the pass on
the store with the booking removed from both registries. -/
theorem C6_amended_witness :
    Sch.hasConflict (Sch.promote_waiting (Sch.runOps trace2)) ⟨8, 0, 3, 0, 10, 2, 1⟩ = true ∧
    ((⟨6, 1, 3, 0, 5, 1, 1⟩ : Sch.Request) ∈
        (Sch.promote_waiting (Sch.runOps trace2)).waiting_queue ∨
      ∃ p ∈ (Sch.promote_waiting (Sch.runOps trace2)).bookings,
        (p : Nat × Sch.Booking).2.user_id = 1 ∧ p.2.resource_id = 3 ∧
        p.2.start_time = 0 ∧ p.2.end_time = 5) ∧
    Sch.cancel_booking (Sch.runOps trace1pre) 5 =
      .ok (Sch.promote_waiting
        { Sch.runOps trace1pre with
            bookings := (Sch.runOps trace1pre).bookings.filter (fun p => p.1 ≠ 5),
            allocations := updA (Sch.runOps trace1pre).allocations 3
                             (fun l => l.filter (fun b => b.booking_id ≠ 5)) }) :=
  ⟨C6_amended.2.1 (Sch.runOps trace2) ⟨8, 0, 3, 0, 10, 2, 1⟩ (by decide),
   C6_amended.2.2.1 (Sch.runOps trace2) ⟨6, 1, 3, 0, 5, 1, 1⟩ (by decide),
   C6_amended.2.2.2 (Sch.runOps trace1pre) 5 ⟨5, 0, 3, 0, 10⟩ (by decide)⟩

/-- C9: in every state reachable by the public operations, the global booking
index and the per-resource allocation sets are synchronized: every indexed
booking is keyed by its own id and sits in its resource's allocation list,
and every booking found in an allocation list belongs to that resource and is
present (under its id) in the global index — so a booking is in one registry
exactly when it is in the other. -/
theorem C9_registries_synced (s : Sch.State) (hs : Sch.Reachable s) :
    (∀ p ∈ s.bookings, Prod.fst p = (Prod.snd p).booking_id) ∧
    (∀ p ∈ s.bookings,
      ∃ l, alookup s.allocations (Prod.snd p).resource_id = some l ∧ Prod.snd p ∈ l) ∧
    (∀ q ∈ s.allocations, ∀ b ∈ Prod.snd q,
      b.resource_id = Prod.fst q ∧ (b.booking_id, b) ∈ s.bookings) := by
  obtain ⟨h1, h2, h3, h4, h5, h6, h7, h8, h9, h10, h11, h12⟩ := Sch.inv_reachable s hs
  exact ⟨h2, h10, fun q hq b hb => ⟨h8 q hq b hb, h9 q hq b hb⟩⟩

/-- C9 witness: the sync property instantiated at the store reached by
`trace1` (which exercises admission, preemption and removal). -/
theorem C9_registries_synced_witness :
    (∀ p ∈ (Sch.runOps trace1).bookings, Prod.fst p = (Prod.snd p).booking_id) ∧
    (∀ p ∈ (Sch.runOps trace1).bookings,
      ∃ l, alookup (Sch.runOps trace1).allocations (Prod.snd p).resource_id = some l ∧
        Prod.snd p ∈ l) ∧
    (∀ q ∈ (Sch.runOps trace1).allocations, ∀ b ∈ Prod.snd q,
      b.resource_id = Prod.fst q ∧ (b.booking_id, b) ∈ (Sch.runOps trace1).bookings) :=
  C9_registries_synced (Sch.runOps trace1) (Sch.reachable_runOps trace1)

/-- C1 amended: when a submitted request conflicts with existing bookings on
its resource, the engine permits preemption if and only if the requester
strictly outranks the owner of AT LEAST ONE conflicting booking (not every
one); it then removes exactly the outranked conflicting bookings — conflicts
with equal-or-higher-priority owners survive — before creating the new
booking, and only when no conflicting owner is outranked is nothing removed
and the request waitlisted. -/
theorem C1_amended (s : Sch.State) (now uid rid a b : Nat) (u : Sch.User)
    (l : List Sch.Booking)
    (hreach : Sch.Reachable s)
    (hu : alookup s.users uid = some u)
    (hr : (alookup s.resources rid).isSome = true)
    (hab : a < b)
    (hl : alookup s.allocations rid = some l)
    (hc : Sch.conflictsWith a b l ≠ []) :
    ((Sch.conflictsWith a b l).filter
        (fun bk => decide (Sch.priorityOf s.users uid <
                           Sch.priorityOf s.users bk.user_id)) = [] →
      Sch.request_booking s now uid rid a b =
        .ok ({ s with request_heap := [],
                      waiting_queue := s.waiting_queue ++
                        [⟨s.next_id, uid, rid, a, b, now, u.priority⟩],
                      next_id := s.next_id + 1 },
             some (.waitlisted s.next_id))) ∧
    ((Sch.conflictsWith a b l).filter
        (fun bk => decide (Sch.priorityOf s.users uid <
                           Sch.priorityOf s.users bk.user_id)) ≠ [] →
      ∃ s2 nb names,
        Sch.request_booking s now uid rid a b = .ok (s2, some (.confirmed nb names)) ∧
        (nb, (⟨nb, uid, rid, a, b⟩ : Sch.Booking)) ∈ s2.bookings ∧
        (∀ bk ∈ Sch.conflictsWith a b l,
          (Sch.priorityOf s.users uid < Sch.priorityOf s.users bk.user_id →
            alookup s2.bookings bk.booking_id = none) ∧
          (¬ Sch.priorityOf s.users uid < Sch.priorityOf s.users bk.user_id →
            (bk.booking_id, bk) ∈ s2.bookings))) := by
  have hinv := Sch.inv_reachable s hreach
  have hba : ¬ b ≤ a := fun h => Nat.lt_irrefl a (Nat.lt_of_lt_of_le hab h)
  have hrn : (alookup s.resources rid).isNone = false := by
    cases halr : alookup s.resources rid with
    | none => rw [halr] at hr; exact absurd hr (by simp)
    | some r0 => rfl
  have hrb : Sch.request_booking s now uid rid a b =
      .ok (Sch.attempt_allocate now
        { s with
            request_heap := s.request_heap ++
                              [⟨s.next_id, uid, rid, a, b, now, u.priority⟩],
            next_id := s.next_id + 1 }) := by
    unfold Sch.request_booking
    rw [hu]
    dsimp only
    rw [if_neg (by simp [hrn]), if_neg hba]
  have hheap1 : ({ s with
      request_heap := s.request_heap ++
                        [⟨s.next_id, uid, rid, a, b, now, u.priority⟩],
      next_id := s.next_id + 1 } : Sch.State).request_heap =
      [(⟨s.next_id, uid, rid, a, b, now, u.priority⟩ : Sch.Request)] := by
    dsimp only
    simp [hinv.heap_empty]
  have hl1 : alookup ({ s with
      request_heap := s.request_heap ++
                        [⟨s.next_id, uid, rid, a, b, now, u.priority⟩],
      next_id := s.next_id + 1 } : Sch.State).allocations
      (⟨s.next_id, uid, rid, a, b, now, u.priority⟩ : Sch.Request).resource_id =
      some l := hl
  have hql : (rid, l) ∈ s.allocations := alookup_mem hl
  have hlids := hinv.a_ids_nodup _ hql
  constructor
  · intro hpf
    rw [hrb, Sch.attempt_allocate_waitlist now _ _ l hheap1 hl1 hc hpf]
  · intro hpf
    rw [hrb, Sch.attempt_allocate_preempt now _ _ l hheap1 hl1 hpf]
    dsimp only
    refine ⟨_, _, _, rfl, ?_, ?_⟩
    · exact List.mem_append_right _ (by simp)
    · intro bk hbk
      have hbk_l : bk ∈ l := List.mem_of_mem_filter hbk
      have hbk_b : (bk.booking_id, bk) ∈ s.bookings := hinv.a_in_b _ hql bk hbk_l
      have hbk_lt : bk.booking_id < s.next_id := hinv.bkey_lt _ hbk_b
      constructor
      · intro hlt
        have hbkpre : bk ∈ (Sch.conflictsWith a b l).filter
            (fun bb => decide (Sch.priorityOf s.users uid <
                               Sch.priorityOf s.users bb.user_id)) :=
          List.mem_filter.mpr ⟨hbk, by simpa using hlt⟩
        rw [alookup_append, Sch.preempt_fold_bookings,
            if_pos (List.mem_map.mpr ⟨bk, hbkpre, rfl⟩)]
        have hge := Sch.preempt_fold_next_ge rid now
          ((Sch.conflictsWith a b l).filter
            (fun bb => decide (Sch.priorityOf s.users uid <
                               Sch.priorityOf s.users bb.user_id)))
          { s with request_heap := ([] : List Sch.Request), next_id := s.next_id + 1 }
        dsimp only at hge
        simp only [alookup]
        rw [if_neg (by omega)]
      · intro hnlt
        have hnotin : bk.booking_id ∉ ((Sch.conflictsWith a b l).filter
            (fun bb => decide (Sch.priorityOf s.users uid <
                               Sch.priorityOf s.users bb.user_id))).map
              Sch.Booking.booking_id := by
          intro hmem
          obtain ⟨bk2, hbk2, he⟩ := List.mem_map.mp hmem
          have hbk2_c : bk2 ∈ Sch.conflictsWith a b l := List.mem_of_mem_filter hbk2
          have hbk2_l : bk2 ∈ l := List.mem_of_mem_filter hbk2_c
          have heq : bk2 = bk := List.inj_on_of_nodup_map hlids hbk2_l hbk_l he
          subst heq
          have := List.of_mem_filter hbk2
          simp at this
          exact hnlt this
        apply List.mem_append_left
        have hlook : alookup ((((Sch.conflictsWith a b l).filter
            (fun bb => decide (Sch.priorityOf s.users uid <
                               Sch.priorityOf s.users bb.user_id))).foldl
              (Sch.preemptOne rid now)
              { s with request_heap := ([] : List Sch.Request),
                       next_id := s.next_id + 1 }).bookings) bk.booking_id =
            some bk := by
          rw [Sch.preempt_fold_bookings, if_neg hnotin]
          exact alookup_of_mem_nodup hbk_b hinv.bkeys_nodup
        exact alookup_mem hlook

/-- C1 amended witness: the amended rule applied to the `trace1pre` store,
where faculty user 2 requests `[5,15)` against a student-owned booking and a
faculty-owned booking. -/
theorem C1_amended_witness :
    ((Sch.conflictsWith 5 15 [⟨5, 0, 3, 0, 10⟩, ⟨7, 1, 3, 10, 20⟩]).filter
        (fun bk => decide (Sch.priorityOf (Sch.runOps trace1pre).users 2 <
                           Sch.priorityOf (Sch.runOps trace1pre).users bk.user_id)) = [] →
      Sch.request_booking (Sch.runOps trace1pre) 2 2 3 5 15 =
        .ok ({ Sch.runOps trace1pre with
                 request_heap := [],
                 waiting_queue := (Sch.runOps trace1pre).waiting_queue ++
                   [⟨(Sch.runOps trace1pre).next_id, 2, 3, 5, 15, 2, 0⟩],
                 next_id := (Sch.runOps trace1pre).next_id + 1 },
             some (.waitlisted (Sch.runOps trace1pre).next_id))) ∧
    ((Sch.conflictsWith 5 15 [⟨5, 0, 3, 0, 10⟩, ⟨7, 1, 3, 10, 20⟩]).filter
        (fun bk => decide (Sch.priorityOf (Sch.runOps trace1pre).users 2 <
                           Sch.priorityOf (Sch.runOps trace1pre).users bk.user_id)) ≠ [] →
      ∃ s2 nb names,
        Sch.request_booking (Sch.runOps trace1pre) 2 2 3 5 15 =
          .ok (s2, some (.confirmed nb names)) ∧
        (nb, (⟨nb, 2, 3, 5, 15⟩ : Sch.Booking)) ∈ s2.bookings ∧
        (∀ bk ∈ Sch.conflictsWith 5 15 [⟨5, 0, 3, 0, 10⟩, ⟨7, 1, 3, 10, 20⟩],
          (Sch.priorityOf (Sch.runOps trace1pre).users 2 <
              Sch.priorityOf (Sch.runOps trace1pre).users bk.user_id →
            alookup s2.bookings bk.booking_id = none) ∧
          (¬ Sch.priorityOf (Sch.runOps trace1pre).users 2 <
              Sch.priorityOf (Sch.runOps trace1pre).users bk.user_id →
            (bk.booking_id, bk) ∈ s2.bookings))) :=
  C1_amended (Sch.runOps trace1pre) 2 2 3 5 15 ⟨2, "F2", "Faculty", 0⟩
    [⟨5, 0, 3, 0, 10⟩, ⟨7, 1, 3, 10, 20⟩]
    (Sch.reachable_runOps trace1pre) (by decide) (by decide) (by decide)
    (by decide) (by decide)
